import Mathlib

/-!
Verification of the sparse voxel-grid spec against
`src/pybullet_tools/voxels.py` (class `VoxelGrid`).

Shallow embedding conventions:
* a Python `dict` is an insertion-ordered association list with unique keys;
  `dictSet` updates in place or appends, `dictPop` removes the entry;
* world/grid points are rational triples (`Point3`), voxels are integer
  triples (`Voxel`);
* a Python runtime failure (uncaught exception) is `Option.none` / a
  dedicated failure value;
* the rigid pose `world_from_grid` and its helpers `tform_point`/`invert`
  live in `pybullet_tools/utils.py`, which is not part of the sources under
  verification, so the grid-frame conversion `to_grid` is carried as an
  opaque function field of the grid state (the claims settled here do not
  depend on its concrete form).
-/

/-- An integer voxel index `(i, j, k)`, the key of a grid cell. -/
abbrev Voxel : Type := ℤ × ℤ × ℤ

/-- A point with rational coordinates (stands for the float triples of the
Python code; all claims settled here use exact arithmetic only). -/
abbrev Point3 : Type := ℚ × ℚ × ℚ

/-- An axis-aligned bounding box `(lower, upper)`. -/
abbrev AABB : Type := Point3 × Point3

/-- Membership of a key in an association list (Python `voxel in dict`). -/
def dictContains {V : Type} (m : List (Voxel × V)) (k : Voxel) : Bool :=
  m.any (fun e => decide (e.1 = k))

/-- Lookup of a key (Python `dict[k]`), first matching entry. -/
def dictGet? {V : Type} (m : List (Voxel × V)) (k : Voxel) : Option V :=
  (m.find? (fun e => decide (e.1 = k))).map Prod.snd

/-- Update-or-append (Python `dict[k] = val`): an existing key keeps its
position and gets the new value, a fresh key is appended at the end. -/
def dictSet {V : Type} (m : List (Voxel × V)) (k : Voxel) (val : V) :
    List (Voxel × V) :=
  match m with
  | [] => [(k, val)]
  | e :: rest => if e.1 = k then (k, val) :: rest else e :: dictSet rest k val

/-- Removal of a key (Python `dict.pop(k)`), first matching entry. -/
def dictPop {V : Type} (m : List (Voxel × V)) (k : Voxel) : List (Voxel × V) :=
  match m with
  | [] => []
  | e :: rest => if e.1 = k then rest else e :: dictPop rest k

/-- Key list of an association list, in insertion order. -/
def dictKeys {V : Type} (m : List (Voxel × V)) : List Voxel :=
  m.map Prod.fst

/-- The mutable state of `VoxelGrid` (`__init__`, voxels.py lines 69-96):
per-axis cell sizes, the default-value factory's result, the sparse map
`value_from_voxel`, the abstracted grid-frame conversion, and the two
parallel cache lists `occupied_points` / `occupied_voxel_points`. -/
structure VoxelGrid (V : Type) where
  resolutions : Point3
  default : V
  value_from_voxel : List (Voxel × V)
  to_grid : Point3 → Point3
  occupied_points : List Point3
  occupied_voxel_points : List Voxel

/-- A fresh grid with empty map and caches (`__init__`). -/
def VoxelGrid.empty {V : Type} (res : Point3) (d : V)
    (tg : Point3 → Point3) : VoxelGrid V :=
  ⟨res, d, [], tg, [], []⟩

/-- Coordinates of a voxel as a rational point. -/
def pointOfVoxel (v : Voxel) : Point3 :=
  ((v.1 : ℚ), (v.2.1 : ℚ), (v.2.2 : ℚ))

/-- Grid-frame lower corner scaling (`lower_from_voxel`, line 178): the
componentwise product with `resolutions`; like the Python code it is applied
to fractional inputs as well. -/
def VoxelGrid.lower_scaled {V : Type} (g : VoxelGrid V) (q : Point3) : Point3 :=
  (q.1 * g.resolutions.1, q.2.1 * g.resolutions.2.1, q.2.2 * g.resolutions.2.2)

/-- Grid-frame cell center (`center_from_voxel`, line 181):
`lower_from_voxel(voxel + 0.5)`. -/
def VoxelGrid.center_from_voxel {V : Type} (g : VoxelGrid V) (v : Voxel) :
    Point3 :=
  g.lower_scaled ((v.1 : ℚ) + 1/2, (v.2.1 : ℚ) + 1/2, (v.2.2 : ℚ) + 1/2)

/-- Grid-frame cell lower corner (`lower_from_voxel` on an integer voxel). -/
def VoxelGrid.lower_from_voxel {V : Type} (g : VoxelGrid V) (v : Voxel) :
    Point3 :=
  g.lower_scaled (pointOfVoxel v)

/-- Grid-frame cell upper corner (`upper_from_voxel`, line 184):
`lower_from_voxel(voxel + 1.0)`. -/
def VoxelGrid.upper_from_voxel {V : Type} (g : VoxelGrid V) (v : Voxel) :
    Point3 :=
  g.lower_scaled ((v.1 : ℚ) + 1, (v.2.1 : ℚ) + 1, (v.2.2 : ℚ) + 1)

/-- Grid-frame cell box (`aabb_from_voxel`, line 187). -/
def VoxelGrid.aabb_from_voxel {V : Type} (g : VoxelGrid V) (v : Voxel) : AABB :=
  (g.lower_from_voxel v, g.upper_from_voxel v)

/-- Voxel index of a world point (`voxel_from_point`, line 150):
elementwise `floor(to_grid(point) / resolutions)`. -/
def VoxelGrid.voxel_from_point {V : Type} (g : VoxelGrid V) (p : Point3) :
    Voxel :=
  let q := g.to_grid p
  (⌊q.1 / g.resolutions.1⌋, ⌊q.2.1 / g.resolutions.2.1⌋,
    ⌊q.2.2 / g.resolutions.2.2⌋)

/-- Membership test (`contains`, line 233): `voxel in value_from_voxel`. -/
def VoxelGrid.contains {V : Type} (g : VoxelGrid V) (v : Voxel) : Bool :=
  dictContains g.value_from_voxel v

/-- Alias `is_occupied = contains` (line 248). -/
def VoxelGrid.is_occupied {V : Type} (g : VoxelGrid V) (v : Voxel) : Bool :=
  g.contains v

/-- Stored-value query (`get_value`, lines 236-238): `assert contains` then
the dict lookup; `none` models the assertion failure on an unoccupied
voxel. -/
def VoxelGrid.get_value {V : Type} (g : VoxelGrid V) (v : Voxel) : Option V :=
  if g.contains v then dictGet? g.value_from_voxel v else none

/-- Unconditional upsert (`set_value`, lines 240-242). -/
def VoxelGrid.set_value {V : Type} (g : VoxelGrid V) (v : Voxel) (val : V) :
    VoxelGrid V :=
  { g with value_from_voxel := dictSet g.value_from_voxel v val }

/-- Guarded removal (`remove_value`, lines 244-246): pop the entry when
present, otherwise do nothing. -/
def VoxelGrid.remove_value {V : Type} (g : VoxelGrid V) (v : Voxel) :
    VoxelGrid V :=
  if g.contains v then { g with value_from_voxel := dictPop g.value_from_voxel v }
  else g

/-- Occupation (`set_occupied`, lines 250-256): no-op returning `false` when
already occupied; otherwise store the default value, append the grid-frame
center to `occupied_points` and the voxel to `occupied_voxel_points`, and
return `true`. -/
def VoxelGrid.set_occupied {V : Type} (g : VoxelGrid V) (v : Voxel) :
    Bool × VoxelGrid V :=
  if g.is_occupied v then (false, g)
  else
    (true,
      { g.set_value v g.default with
        occupied_points := g.occupied_points ++ [g.center_from_voxel v],
        occupied_voxel_points := g.occupied_voxel_points ++ [v] })

/-- Freeing (`set_free`, lines 258-265): no-op returning `false` when not
occupied; otherwise pop the map entry, locate the first cache index whose
stored point equals the voxel's center (`list.index`, `none` models the
`ValueError` when absent), and remove by value — Python `list.remove(x)`
deletes the first occurrence of `x` — the point at that index from
`occupied_points` and the voxel at that index from `occupied_voxel_points`
(`none` also models the `IndexError` when the voxel list is shorter). -/
def VoxelGrid.set_free {V : Type} (g : VoxelGrid V) (v : Voxel) :
    Option (Bool × VoxelGrid V) :=
  if ¬ g.is_occupied v then some (false, g)
  else
    let g1 := g.remove_value v
    match g.occupied_points.findIdx? (fun p => decide (p = g.center_from_voxel v)) with
    | none => none
    | some idx =>
      match g.occupied_points[idx]?, g.occupied_voxel_points[idx]? with
      | some pval, some vval =>
        some (true,
          { g1 with
            occupied_points := g1.occupied_points.erase pval,
            occupied_voxel_points := g1.occupied_voxel_points.erase vval })
      | _, _ => none

/-- Copy (`copy`, lines 137-142): a fresh grid built from the same
resolutions, default and pose, whose map is a copy of `value_from_voxel`;
the constructor leaves both center caches empty. -/
def VoxelGrid.copy {V : Type} (g : VoxelGrid V) : VoxelGrid V :=
  { resolutions := g.resolutions
    default := g.default
    value_from_voxel := g.value_from_voxel
    to_grid := g.to_grid
    occupied_points := []
    occupied_voxel_points := [] }

/-- Lexicographic order on voxels (Python tuple comparison, used by
`sorted(self.value_from_voxel)`). -/
def voxelLe (a b : Voxel) : Prop :=
  a.1 < b.1 ∨ (a.1 = b.1 ∧ (a.2.1 < b.2.1 ∨ (a.2.1 = b.2.1 ∧ a.2.2 ≤ b.2.2)))

instance : DecidableRel voxelLe := fun a b => by
  unfold voxelLe; infer_instance

/-- Sorted key list (`occupied` property, lines 127-129):
`sorted(self.value_from_voxel)` iterates the dict keys and sorts them. -/
def VoxelGrid.occupied {V : Type} (g : VoxelGrid V) : List Voxel :=
  List.insertionSort voxelLe (dictKeys g.value_from_voxel)

/-- Face-adjacent neighbor list (`get_neighbors`, lines 267-272): the reused
direction array yields, per axis in order 0,1,2, the −1 neighbor then the +1
neighbor. -/
def get_neighbors (v : Voxel) : List Voxel :=
  [(v.1 - 1, v.2.1, v.2.2), (v.1 + 1, v.2.1, v.2.2),
    (v.1, v.2.1 - 1, v.2.2), (v.1, v.2.1 + 1, v.2.2),
    (v.1, v.2.1, v.2.2 - 1), (v.1, v.2.1, v.2.2 + 1)]

/-- Sequential traversal of a neighbor list, threading the assigned set
(the `for neighbor in ...: cluster.extend(dfs(neighbor))` loop); the
recursive visit is passed as a function so the recursion stays structural. -/
def dfsListAux
    (visit : Finset Voxel → Voxel → Option (List Voxel × Finset Voxel)) :
    Finset Voxel → List Voxel → Option (List Voxel × Finset Voxel)
  | assigned, [] => some ([], assigned)
  | assigned, n :: ns =>
    match visit assigned n with
    | none => none
    | some (c, a2) =>
      match dfsListAux visit a2 ns with
      | none => none
      | some (cs, a3) => some (c ++ cs, a3)

/-- Recursive traversal (`dfs` inside `get_clusters`, lines 280-287): skip a
voxel that is already assigned or unoccupied, otherwise assign it and
recursively extend through its neighbors, returning the visited cluster in
visit order together with the updated assigned set.  The fuel argument only
bounds nesting depth (Python recursion is unbounded); `dfsFuel` below is
proven sufficient, so `none` never occurs at the call sites used in the
theorems. -/
def dfs {V : Type} (g : VoxelGrid V) :
    ℕ → Finset Voxel → Voxel → Option (List Voxel × Finset Voxel)
  | 0 => fun _ _ => none
  | (f + 1) => fun assigned current =>
    if current ∈ assigned ∨ ¬ (g.is_occupied current = true) then
      some ([], assigned)
    else
      match dfsListAux (dfs g f) (insert current assigned)
          (get_neighbors current) with
      | none => none
      | some (rest, a2) => some (current :: rest, a2)

/-- Traversal of a neighbor list at a given fuel level. -/
def dfsList {V : Type} (g : VoxelGrid V) (f : ℕ) :
    Finset Voxel → List Voxel → Option (List Voxel × Finset Voxel) :=
  dfsListAux (dfs g f)

/-- Fuel sufficient for every `dfs` call on grid `g` (proven below). -/
def dfsFuel {V : Type} (g : VoxelGrid V) : ℕ :=
  (dictKeys g.value_from_voxel).length + 1

/-- Seed loop of `get_clusters` (lines 289-292): run `dfs` from each seed in
order, keeping the nonempty clusters in seed order. -/
def clustersAux {V : Type} (g : VoxelGrid V) :
    Finset Voxel → List Voxel → Option (List (List Voxel))
  | _, [] => some []
  | assigned, s :: ss =>
    match dfs g (dfsFuel g) assigned s with
    | none => none
    | some (c, a2) =>
      match clustersAux g a2 ss with
      | none => none
      | some cs => some (if c = [] then cs else c :: cs)

/-- Connected-component clustering (`get_clusters`, lines 274-293), with the
seed list explicit; the Python default `voxels=None` passes `self.occupied`. -/
def VoxelGrid.get_clusters {V : Type} (g : VoxelGrid V) (voxels : List Voxel) :
    Option (List (List Voxel)) :=
  clustersAux g ∅ voxels

/-- Column accumulation of `create_intervals` (lines 459-461):
`voxel_heights.setdefault((i, j), set()).add(k)` — an insertion-ordered
association list of columns, each holding its set of occupied `k` indices
(kept as a duplicate-free list in arrival order). -/
def addHeight (cols : List ((ℤ × ℤ) × List ℤ)) (ij : ℤ × ℤ) (k : ℤ) :
    List ((ℤ × ℤ) × List ℤ) :=
  match cols with
  | [] => [(ij, [k])]
  | (key, ks) :: rest =>
    if key = ij then (key, if k ∈ ks then ks else ks ++ [k]) :: rest
    else (key, ks) :: addHeight rest ij k

/-- Column table built from the occupied list. -/
def buildColumns (voxels : List Voxel) : List ((ℤ × ℤ) × List ℤ) :=
  voxels.foldl (fun acc v => addHeight acc (v.1, v.2.1) v.2.2) []

/-- Run merging of `create_intervals` (lines 465-474): scan the sorted
heights, extending the current run `(start, last)` on a consecutive index
and emitting it otherwise; the final run is emitted after the loop. -/
def mergeRuns (start last : ℤ) : List ℤ → List (ℤ × ℤ)
  | [] => [(start, last)]
  | k :: rest =>
    if k = last + 1 then mergeRuns start k rest
    else (start, last) :: mergeRuns k k rest

/-- Per-column intervals: `heights = sorted(voxel_heights[i, j])`, then run
merging seeded with `start = last = heights[0]`; a column list is never
empty in `create_intervals`, the `[]` case is unreachable. -/
def columnIntervals (ks : List ℤ) : List (ℤ × ℤ) :=
  match List.insertionSort (· ≤ ·) ks with
  | [] => []
  | h :: t => mergeRuns h h t

/-- Vertical run-length compression (`create_intervals`, lines 458-476). -/
def VoxelGrid.create_intervals {V : Type} (g : VoxelGrid V) :
    List (ℤ × ℤ × (ℤ × ℤ)) :=
  (buildColumns g.occupied).flatMap
    (fun col => (columnIntervals col.2).map (fun ab => (col.1.1, col.1.2, ab)))

/-- Tallest-voxel accumulation of `project2d` (lines 523-525):
`tallest_voxel[i, j] = max(k, tallest_voxel.get((i, j), k))`. -/
def tallestUpd (cols : List ((ℤ × ℤ) × ℤ)) (ij : ℤ × ℤ) (k : ℤ) :
    List ((ℤ × ℤ) × ℤ) :=
  match cols with
  | [] => [(ij, k)]
  | (key, k0) :: rest =>
    if key = ij then (key, max k k0) :: rest
    else (key, k0) :: tallestUpd rest ij k

/-- Top-surface projection (`project2d`, lines 519-526).  The Python code
returns a set whose iteration order is unspecified; here the entries are
listed in first-appearance order of the columns, and the height-map theorem
proves the paint result independent of that order. -/
def VoxelGrid.project2dList {V : Type} (g : VoxelGrid V) : List Voxel :=
  ((g.occupied).foldl (fun acc v => tallestUpd acc (v.1, v.2.1) v.2.2) []).map
    (fun col => (col.1.1, col.1.2, col.2))

/-- Clamp of a value into `[lo, hi]`.  Modelled from the spec: `clip` comes
from `pybullet_tools/utils.py` (not under the verified sources); §4.6 says
"clamp world height into a fixed range" — `np.clip(x, lo, hi)`. -/
def clip (x lo hi : ℚ) : ℚ :=
  min (max x lo) hi

/-- Pixel map of `create_height_map` (lines 540-542):
`floor(image_size * (point - plane_lower)[:2] / plane_extent[:2])` with
`plane_extent[:2] = (plane_size, plane_size)`. -/
def pixel_from_point (plane_lower : Point3) (plane_size : ℚ)
    (width height : ℤ) (p : Point3) : ℤ × ℤ :=
  (⌊(width : ℚ) * (p.1 - plane_lower.1) / plane_size⌋,
    ⌊(height : ℚ) * (p.2.1 - plane_lower.2.1) / plane_size⌋)

/-- Painting of one heightfield entry (`create_height_map` loop body, lines
546-559): compute the voxel box's pixel rectangle, discard it silently when
any part leaves the image, otherwise normalize the clamped top height with
`min_z, max_z = 0.0, 2.0` and write every covered pixel `(r, c)` — with the
row flip `r = height - y - 1` — to the max of its current value and the new
height.  The height map is a total function from pixel coordinates, zero
outside the painted region, standing for the `np.zeros` array. -/
def paintEntry {V : Type} (g : VoxelGrid V) (plane_lower : Point3)
    (plane_size : ℚ) (width height : ℤ) (hm : ℤ × ℤ → ℚ) (voxel : Voxel) :
    ℤ × ℤ → ℚ :=
  let va := g.aabb_from_voxel voxel
  let p1 := pixel_from_point plane_lower plane_size width height va.1
  let p2 := pixel_from_point plane_lower plane_size width height va.2
  if p1.1 < 0 ∨ width ≤ p2.1 ∨ p1.2 < 0 ∨ height ≤ p2.2 then hm
  else
    let scaled_z := (clip va.2.2.2 0 2 - 0) / 2
    fun rc =>
      if p1.1 ≤ rc.2 ∧ rc.2 ≤ p2.1 ∧ p1.2 ≤ height - 1 - rc.1 ∧
          height - 1 - rc.1 ≤ p2.2 then
        max (hm rc) scaled_z
      else hm rc

/-- The `for voxel in self.project2d()` loop, over an explicit entry list. -/
def paintEntries {V : Type} (g : VoxelGrid V) (plane_lower : Point3)
    (plane_size : ℚ) (width height : ℤ) (hm0 : ℤ × ℤ → ℚ)
    (entries : List Voxel) : ℤ × ℤ → ℚ :=
  entries.foldl (paintEntry g plane_lower plane_size width height) hm0

/-- Height-map rasterization (`create_height_map`, lines 528-560).  Modelled
from the spec where it leaves the verified sources: `get_point(plane)` asks
the external physics backend for the plane body's position, carried here as
the parameter `plane_point` (§4.6 "a world-space square of side
`planar_extent` centered at `reference_point`"); `plane_lower` is then
`plane_point - plane_size * (1, 1, 0) / 2` as in lines 532-533. -/
def VoxelGrid.create_height_map {V : Type} (g : VoxelGrid V)
    (plane_point : Point3) (plane_size : ℚ) (width height : ℤ) :
    ℤ × ℤ → ℚ :=
  let plane_lower : Point3 :=
    (plane_point.1 - plane_size / 2, plane_point.2.1 - plane_size / 2,
      plane_point.2.2)
  paintEntries g plane_lower plane_size width height (fun _ => 0)
    g.project2dList

/-- Corner list of a box.  Modelled from the spec: `get_aabb_vertices` comes
from `pybullet_tools/utils.py` (not under the verified sources); §4.1 says
the candidate range covers "the voxelized corners of `aabb`'s 8 vertices" —
each corner picks its coordinate per axis from the lower or the upper
point. -/
def get_aabb_vertices (a : AABB) : List Point3 :=
  [(a.1.1, a.1.2.1, a.1.2.2), (a.1.1, a.1.2.1, a.2.2.2),
    (a.1.1, a.2.2.1, a.1.2.2), (a.1.1, a.2.2.1, a.2.2.2),
    (a.2.1, a.1.2.1, a.1.2.2), (a.2.1, a.1.2.1, a.2.2.2),
    (a.2.1, a.2.2.1, a.1.2.2), (a.2.1, a.2.2.1, a.2.2.2)]

/-- Componentwise hull of a voxel list.  Modelled from the spec:
`aabb_from_points` comes from `pybullet_tools/utils.py` (not under the
verified sources); §4.1 says "the minimal integer range covering the
voxelized corners" — the per-axis minimum and maximum over the list (the
input is the 8 corner voxels, never empty). -/
def hullStep (acc : Voxel × Voxel) (w : Voxel) : Voxel × Voxel :=
  ((min acc.1.1 w.1, min acc.1.2.1 w.2.1, min acc.1.2.2 w.2.2),
    (max acc.2.1 w.1, max acc.2.2.1 w.2.1, max acc.2.2.2 w.2.2))

def aabb_from_points : List Voxel → Voxel × Voxel
  | [] => ((0, 0, 0), (0, 0, 0))
  | v :: rest => rest.foldl hullStep (v, v)

/-- Inclusive integer range `range(l, u + 1)`. -/
def intRange (l u : ℤ) : List ℤ :=
  (List.range (u + 1 - l).toNat).map (fun n => l + (n : ℤ))

/-- Candidate voxels of a world box (`voxels_from_aabb`, lines 157-164):
hull of the voxelized 8 vertices, then the Cartesian product of the
inclusive per-axis ranges in `itertools.product` order. -/
def VoxelGrid.voxels_from_aabb {V : Type} (g : VoxelGrid V) (a : AABB) :
    List Voxel :=
  let hull := aabb_from_points ((get_aabb_vertices a).map g.voxel_from_point)
  (intRange hull.1.1 hull.2.1).flatMap (fun i =>
    (intRange hull.1.2.1 hull.2.2.1).flatMap (fun j =>
      (intRange hull.1.2.2 hull.2.2.2).map (fun k => ((i, j, k) : Voxel))))

/-- Names of the methods the class `VoxelGrid` defines in
`src/pybullet_tools/voxels.py`, in source order (including the alias
`is_occupied = contains` on line 248). -/
def voxelGridMethodNames : List String :=
  ["__init__", "clear_cloud", "get_frontier", "occupied", "__iter__",
    "__len__", "copy", "to_grid", "to_world", "voxel_from_point",
    "voxels_from_aabb", "occupied_voxels_from_aabb",
    "occupied_voxels_points_from_aabb", "lower_from_voxel",
    "center_from_voxel", "upper_from_voxel", "aabb_from_voxel", "ray_trace",
    "pose_from_voxel", "vertices_from_voxel", "contains", "get_value",
    "set_value", "remove_value", "is_occupied", "set_occupied", "set_free",
    "get_neighbors", "get_clusters", "create_box", "get_affected",
    "check_collision", "add_point", "add_aabb", "add_body", "add_bodies",
    "remove_body", "remove_bodies", "draw_origin", "draw_voxel",
    "draw_voxel_boxes", "draw_voxel_centers", "create_voxel_bodies1",
    "create_voxel_bodies2", "create_voxel_bodies3", "create_voxel_bodies",
    "create_intervals", "draw_intervals", "draw_vertical_lines", "project2d",
    "create_height_map"]

/-- Attribute accesses `self.X` performed by the body of `ray_trace`
(lines 190-223), in evaluation order of a call whose start cell is
unoccupied: the occupancy check, then `get_index`, `get_center`, and inside
the loop `get_min` and `get_max`. -/
def rayTraceAttributeCalls : List String :=
  ["is_occupied", "get_index", "get_center", "get_min", "get_max"]

theorem dictContains_iff {V : Type} (m : List (Voxel × V)) (k : Voxel) :
    dictContains m k = true ↔ ∃ e ∈ m, e.1 = k := by
  simp [dictContains]

theorem dictContains_eq_false {V : Type} (m : List (Voxel × V)) (k : Voxel) :
    dictContains m k = false ↔ ∀ e ∈ m, e.1 ≠ k := by
  simp [dictContains]

theorem dictSet_of_not_mem {V : Type} (m : List (Voxel × V)) (k : Voxel)
    (val : V) (h : dictContains m k = false) :
    dictSet m k val = m ++ [(k, val)] := by
  induction m with
  | nil => rfl
  | cons e rest ih =>
    rw [dictContains_eq_false] at h
    have he : e.1 ≠ k := h e (by simp)
    have hrest : dictContains rest k = false := by
      rw [dictContains_eq_false]
      intro e' he'
      exact h e' (by simp [he'])
    simp [dictSet, he, ih hrest]

theorem dictContains_append_singleton {V : Type} (m : List (Voxel × V))
    (k : Voxel) (val : V) : dictContains (m ++ [(k, val)]) k = true := by
  simp [dictContains]

theorem dictPop_append_singleton {V : Type} (m : List (Voxel × V)) (k : Voxel)
    (val : V) (h : dictContains m k = false) :
    dictPop (m ++ [(k, val)]) k = m := by
  induction m with
  | nil => simp [dictPop]
  | cons e rest ih =>
    rw [dictContains_eq_false] at h
    have he : e.1 ≠ k := h e (by simp)
    have hrest : dictContains rest k = false := by
      rw [dictContains_eq_false]
      intro e' he'
      exact h e' (by simp [he'])
    simp [dictPop, he, ih hrest]

/-- A concrete grid used by the witnesses: unit resolutions, boolean values,
identity pose, freshly constructed. -/
def gridEx : VoxelGrid Bool := VoxelGrid.empty (1, 1, 1) false id

/-- The concrete grid with the single voxel `(0,0,0)` occupied. -/
def gridOcc : VoxelGrid Bool := (gridEx.set_occupied (0, 0, 0)).2

/-- The claim C2 states that `ray_trace` carries out a DDA traversal and
returns `(path, success)`.  The body of `ray_trace` (voxels.py lines
190-223, marked `TODO: finish adapting`) accesses `self.get_index`,
`self.get_center`, `self.get_min` and `self.get_max`, none of which the
class defines, so every call that passes the initial occupancy check raises
`AttributeError` instead of traversing: the first attribute read after
`is_occupied` is the undefined `get_index`. -/
theorem C2_ray_trace_calls_undefined_methods :
    "get_index" ∈ rayTraceAttributeCalls ∧
    "get_center" ∈ rayTraceAttributeCalls ∧
    "get_min" ∈ rayTraceAttributeCalls ∧
    "get_max" ∈ rayTraceAttributeCalls ∧
    "get_index" ∉ voxelGridMethodNames ∧
    "get_center" ∉ voxelGridMethodNames ∧
    "get_min" ∉ voxelGridMethodNames ∧
    "get_max" ∉ voxelGridMethodNames := by
  decide

/-- The claim C7 states that `ray_trace` on coincident start/goal fails with
`InvalidArgument` rather than dividing by zero.  The call never reaches the
direction computation: the attribute read immediately after the `is_occupied`
check (index 1 of the access sequence) is `get_index`, which the class does
not define, so the call dies with `AttributeError` first — and the body
contains no degenerate-direction guard at all. -/
theorem C7_ray_trace_no_degenerate_guard :
    rayTraceAttributeCalls[1]? = some "get_index" ∧
    "get_index" ∉ voxelGridMethodNames := by
  decide

theorem set_occupied_of_contains {V : Type} (g : VoxelGrid V) (v : Voxel)
    (h : g.contains v = true) : g.set_occupied v = (false, g) := by
  unfold VoxelGrid.set_occupied
  rw [show g.is_occupied v = true from h]
  simp

theorem set_occupied_of_not_contains {V : Type} (g : VoxelGrid V) (v : Voxel)
    (h : g.contains v = false) :
    g.set_occupied v =
      (true,
        { g with
          value_from_voxel := g.value_from_voxel ++ [(v, g.default)],
          occupied_points := g.occupied_points ++ [g.center_from_voxel v],
          occupied_voxel_points := g.occupied_voxel_points ++ [v] }) := by
  unfold VoxelGrid.set_occupied
  rw [show g.is_occupied v = false from h]
  simp [VoxelGrid.set_value, dictSet_of_not_mem _ _ _ h]

/-- The claim C5: on an unoccupied voxel, `set_occupied` stores the default
value, appends the voxel's world center to `occupied_points` and the voxel
to `occupied_voxel_points`, and returns `true`; calling it again returns
`false` and leaves the map and both caches unchanged. -/
theorem C5_set_occupied_idempotent {V : Type} (g : VoxelGrid V) (v : Voxel)
    (h : g.contains v = false) :
    (g.set_occupied v).1 = true ∧
    (g.set_occupied v).2.value_from_voxel = g.value_from_voxel ++ [(v, g.default)] ∧
    (g.set_occupied v).2.occupied_points
      = g.occupied_points ++ [g.center_from_voxel v] ∧
    (g.set_occupied v).2.occupied_voxel_points
      = g.occupied_voxel_points ++ [v] ∧
    (g.set_occupied v).2.set_occupied v = (false, (g.set_occupied v).2) := by
  rw [set_occupied_of_not_contains g v h]
  have hocc2 :
      ({ g with
          value_from_voxel := g.value_from_voxel ++ [(v, g.default)],
          occupied_points := g.occupied_points ++ [g.center_from_voxel v],
          occupied_voxel_points := g.occupied_voxel_points ++ [v] } :
        VoxelGrid V).contains v = true :=
    dictContains_append_singleton _ _ _
  exact ⟨rfl, rfl, rfl, rfl, set_occupied_of_contains _ v hocc2⟩

/-- Witness for C5 at the empty unit grid and voxel `(0,0,0)`. -/
theorem C5_witness :
    gridEx.contains (0, 0, 0) = false ∧
    ((gridEx.set_occupied (0, 0, 0)).1 = true ∧
      (gridEx.set_occupied (0, 0, 0)).2.value_from_voxel
        = gridEx.value_from_voxel ++ [(((0, 0, 0) : Voxel), gridEx.default)] ∧
      (gridEx.set_occupied (0, 0, 0)).2.occupied_points
        = gridEx.occupied_points ++ [gridEx.center_from_voxel (0, 0, 0)] ∧
      (gridEx.set_occupied (0, 0, 0)).2.occupied_voxel_points
        = gridEx.occupied_voxel_points ++ [((0, 0, 0) : Voxel)] ∧
      (gridEx.set_occupied (0, 0, 0)).2.set_occupied (0, 0, 0)
        = (false, (gridEx.set_occupied (0, 0, 0)).2)) :=
  ⟨by decide, C5_set_occupied_idempotent gridEx (0, 0, 0) (by decide)⟩

/-- The claim C8: `get_value` fails (`none`, the `assert` failure standing
for NotFound) exactly on voxels that are not keys of the map, and on an
occupied voxel it returns the entry stored for it; in particular it returns
the value just written by `set_value`. -/
theorem C8_get_value {V : Type} (g : VoxelGrid V) (v : Voxel) :
    (g.contains v = false → g.get_value v = none) ∧
    (g.contains v = true →
      ∃ w, (v, w) ∈ g.value_from_voxel ∧ g.get_value v = some w) ∧
    (∀ val : V, (g.set_value v val).get_value v = some val) := by
  refine ⟨?_, ?_, ?_⟩
  · intro h
    simp [VoxelGrid.get_value, h]
  · intro h
    rw [VoxelGrid.contains, dictContains_iff] at h
    obtain ⟨e, he, hek⟩ := h
    have hfind : ∃ e', g.value_from_voxel.find? (fun e => decide (e.1 = v)) = some e' := by
      have : (g.value_from_voxel.find? (fun e => decide (e.1 = v))).isSome := by
        rw [List.find?_isSome]
        exact ⟨e, he, by simp [hek]⟩
      exact Option.isSome_iff_exists.mp this
    obtain ⟨e', hfind⟩ := hfind
    have he'k : e'.1 = v := by
      have := List.find?_some hfind
      simpa using this
    have he'm : e' ∈ g.value_from_voxel := List.mem_of_find?_eq_some hfind
    refine ⟨e'.2, ?_, ?_⟩
    · rw [← he'k]
      exact he'm
    · have hc : g.contains v = true := by
        rw [VoxelGrid.contains, dictContains_iff]
        exact ⟨e, he, hek⟩
      simp [VoxelGrid.get_value, hc, dictGet?, hfind]
  · intro val
    have hc : (g.set_value v val).contains v = true := by
      rw [VoxelGrid.contains, dictContains_iff]
      have : (v, val) ∈ dictSet g.value_from_voxel v val := by
        clear * -
        induction g.value_from_voxel with
        | nil => simp [dictSet]
        | cons e rest ih =>
          by_cases he : e.1 = v
          · simp [dictSet, he]
          · simp [dictSet, he, ih]
      exact ⟨(v, val), this, rfl⟩
    have hget : dictGet? (dictSet g.value_from_voxel v val) v = some val := by
      clear * -
      induction g.value_from_voxel with
      | nil => simp [dictSet, dictGet?]
      | cons e rest ih =>
        by_cases he : e.1 = v
        · simp [dictSet, he, dictGet?]
        · simp only [dictSet, he, if_false]
          simpa [dictGet?, he] using ih
    simp only [VoxelGrid.get_value, hc, if_true]
    exact hget

/-- Witness for C8: the empty grid fails on `(0,0,0)`, the occupied grid
returns its stored entry. -/
theorem C8_witness :
    (gridEx.get_value (0, 0, 0) = none) ∧
    (∃ w, ((0, 0, 0), w) ∈ gridOcc.value_from_voxel ∧
      gridOcc.get_value (0, 0, 0) = some w) :=
  ⟨(C8_get_value gridEx (0, 0, 0)).1 (by decide),
    (C8_get_value gridOcc (0, 0, 0)).2.1 (by decide)⟩

theorem findIdx?_append_self {α : Type} [DecidableEq α] (l : List α) (c : α)
    (h : c ∉ l) :
    (l ++ [c]).findIdx? (fun p => decide (p = c)) = some l.length := by
  induction l with
  | nil => simp [List.findIdx?_cons]
  | cons a t ih =>
    have ha : a ≠ c := fun hac => h (hac ▸ List.mem_cons_self a t)
    have ht : c ∉ t := fun hct => h (List.mem_cons_of_mem a hct)
    rw [List.cons_append, List.findIdx?_cons]
    simp [ha, List.findIdx?_succ, ih ht]

theorem remove_value_of_contains {V : Type} (g : VoxelGrid V) (v : Voxel)
    (h : g.contains v = true) :
    g.remove_value v = { g with value_from_voxel := dictPop g.value_from_voxel v } := by
  unfold VoxelGrid.remove_value
  rw [h]
  simp

theorem set_free_of_not_contains {V : Type} (g : VoxelGrid V) (v : Voxel)
    (h : g.contains v = false) : g.set_free v = some (false, g) := by
  unfold VoxelGrid.set_free
  rw [show g.is_occupied v = false from h]
  simp

theorem set_free_locate {V : Type} (g : VoxelGrid V) (v : Voxel)
    (hocc : g.contains v = true) (idx : ℕ) (pval : Point3) (vval : Voxel)
    (hfind : g.occupied_points.findIdx?
      (fun p => decide (p = g.center_from_voxel v)) = some idx)
    (hp : g.occupied_points[idx]? = some pval)
    (hv : g.occupied_voxel_points[idx]? = some vval) :
    g.set_free v =
      some (true,
        { g.remove_value v with
          occupied_points := (g.remove_value v).occupied_points.erase pval,
          occupied_voxel_points :=
            (g.remove_value v).occupied_voxel_points.erase vval }) := by
  unfold VoxelGrid.set_free
  rw [show g.is_occupied v = true from hocc]
  simp [hfind, hp, hv]

/-- The claim C10 (amended): with positive resolutions, on a voxel absent
from the map whose center and index are also absent from the caches (and
caches of equal length), `set_occupied` followed by `set_free` restores the
map and both caches exactly: `set_free` locates the appended center and
removes exactly that pair of cache entries. -/
theorem C10_occupy_free_roundtrip {V : Type} (g : VoxelGrid V) (v : Voxel)
    (hres : 0 < g.resolutions.1 ∧ 0 < g.resolutions.2.1 ∧ 0 < g.resolutions.2.2)
    (hmap : g.contains v = false)
    (hlen : g.occupied_points.length = g.occupied_voxel_points.length)
    (hpt : g.center_from_voxel v ∉ g.occupied_points)
    (hvx : v ∉ g.occupied_voxel_points) :
    (g.set_occupied v).1 = true ∧
    ∃ g2, (g.set_occupied v).2.set_free v = some (true, g2) ∧
      g2.value_from_voxel = g.value_from_voxel ∧
      g2.occupied_points = g.occupied_points ∧
      g2.occupied_voxel_points = g.occupied_voxel_points := by
  rw [set_occupied_of_not_contains g v hmap]
  set c := g.center_from_voxel v with hc
  set g' : VoxelGrid V :=
    { g with
      value_from_voxel := g.value_from_voxel ++ [(v, g.default)],
      occupied_points := g.occupied_points ++ [c],
      occupied_voxel_points := g.occupied_voxel_points ++ [v] } with hg'
  have hocc' : g'.contains v = true := dictContains_append_singleton _ _ _
  have hcenter : g'.center_from_voxel v = c := rfl
  have hfind : g'.occupied_points.findIdx?
      (fun p => decide (p = g'.center_from_voxel v))
      = some g.occupied_points.length := by
    rw [hcenter]
    exact findIdx?_append_self _ _ hpt
  have hp : g'.occupied_points[g.occupied_points.length]? = some c :=
    List.getElem?_concat_length _ _
  have hv : g'.occupied_voxel_points[g.occupied_points.length]? = some v := by
    show (g.occupied_voxel_points ++ [v])[g.occupied_points.length]? = some v
    rw [hlen]
    exact List.getElem?_concat_length _ _
  have hrm : g'.remove_value v =
      { g' with value_from_voxel := g.value_from_voxel } := by
    rw [remove_value_of_contains g' v hocc']
    have : dictPop g'.value_from_voxel v = g.value_from_voxel :=
      dictPop_append_singleton _ _ _ hmap
    rw [this]
  refine ⟨rfl, ?_⟩
  refine ⟨_, set_free_locate g' v hocc' g.occupied_points.length c v hfind hp hv, ?_, ?_, ?_⟩
  · rw [hrm]
  · show (g'.remove_value v).occupied_points.erase c = g.occupied_points
    rw [hrm]
    show (g.occupied_points ++ [c]).erase c = g.occupied_points
    rw [List.erase_append_right _ hpt, List.erase_cons_head, List.append_nil]
  · show (g'.remove_value v).occupied_voxel_points.erase v = g.occupied_voxel_points
    rw [hrm]
    show (g.occupied_voxel_points ++ [v]).erase v = g.occupied_voxel_points
    rw [List.erase_append_right _ hvx, List.erase_cons_head, List.append_nil]

/-- Witness for C10 at the empty unit grid and voxel `(0,0,0)`. -/
theorem C10_witness :
    (gridEx.contains (0, 0, 0) = false ∧
      gridEx.center_from_voxel (0, 0, 0) ∉ gridEx.occupied_points ∧
      ((0, 0, 0) : Voxel) ∉ gridEx.occupied_voxel_points) ∧
    ((gridEx.set_occupied (0, 0, 0)).1 = true ∧
      ∃ g2, (gridEx.set_occupied (0, 0, 0)).2.set_free (0, 0, 0) = some (true, g2) ∧
        g2.value_from_voxel = gridEx.value_from_voxel ∧
        g2.occupied_points = gridEx.occupied_points ∧
        g2.occupied_voxel_points = gridEx.occupied_voxel_points) :=
  ⟨⟨by decide, by decide, by decide⟩,
    C10_occupy_free_roundtrip gridEx (0, 0, 0)
      ⟨by norm_num [gridEx, VoxelGrid.empty], by norm_num [gridEx, VoxelGrid.empty],
        by norm_num [gridEx, VoxelGrid.empty]⟩
      (by decide) (by decide) (by decide) (by decide)⟩

/-- A reachable grid state refuting C10 as universally stated: occupy
`(0,0,0)` and `(1,0,0)`, then drop both map entries with `remove_value`
(which never touches the caches), leaving stale cache entries. -/
def gridBad : VoxelGrid Bool :=
  ((((VoxelGrid.empty (1, 1, 1) false id).set_occupied (0, 0, 0)).2.set_occupied
      (1, 0, 0)).2.remove_value (0, 0, 0)).remove_value (1, 0, 0)

theorem set_free_head_match {V : Type} (g : VoxelGrid V) (v : Voxel)
    (p : Point3) (P : List Point3) (w : Voxel) (W : List Voxel)
    (hocc : g.contains v = true)
    (hP : g.occupied_points = p :: P)
    (hW : g.occupied_voxel_points = w :: W)
    (hp : g.center_from_voxel v = p) :
    g.set_free v =
      some (true,
        { g.remove_value v with occupied_points := P, occupied_voxel_points := W }) := by
  have h1 := set_free_locate g v hocc 0 p w
    (by rw [hP, hp, List.findIdx?_cons]; simp)
    (by rw [hP]; exact List.getElem?_cons_zero)
    (by rw [hW]; exact List.getElem?_cons_zero)
  rw [h1]
  have hrm : (g.remove_value v).occupied_points = p :: P := by
    rw [remove_value_of_contains g v hocc]
    exact hP
  have hrm2 : (g.remove_value v).occupied_voxel_points = w :: W := by
    rw [remove_value_of_contains g v hocc]
    exact hW
  rw [hrm, hrm2, List.erase_cons_head, List.erase_cons_head]

/-- Counterexample to C10 as stated: `gridBad` has positive resolutions and
does not contain `(0,0,0)`, yet occupying and then freeing `(0,0,0)` does
not restore `occupied_points` (the stale first cache entry is the one
removed, reordering the list). -/
theorem C10_counterexample :
    (0 < gridBad.resolutions.1 ∧ 0 < gridBad.resolutions.2.1 ∧
      0 < gridBad.resolutions.2.2) ∧
    gridBad.contains (0, 0, 0) = false ∧
    Option.map (fun r => r.2.occupied_points)
        ((gridBad.set_occupied (0, 0, 0)).2.set_free (0, 0, 0))
      ≠ some gridBad.occupied_points := by
  refine ⟨⟨?_, ?_, ?_⟩, rfl, ?_⟩
  · show (0 : ℚ) < 1
    norm_num
  · show (0 : ℚ) < 1
    norm_num
  · show (0 : ℚ) < 1
    norm_num
  have hfree := set_free_head_match (gridBad.set_occupied (0, 0, 0)).2 (0, 0, 0)
    (gridEx.center_from_voxel (0, 0, 0))
    [gridEx.center_from_voxel (1, 0, 0), gridEx.center_from_voxel (0, 0, 0)]
    (0, 0, 0) [(1, 0, 0), (0, 0, 0)] rfl rfl rfl rfl
  rw [hfree]
  have hne : gridEx.center_from_voxel (1, 0, 0) ≠ gridEx.center_from_voxel (0, 0, 0) := by
    simp only [VoxelGrid.center_from_voxel, VoxelGrid.lower_scaled, gridEx,
      VoxelGrid.empty, Prod.mk.injEq, not_and]
    norm_num
  have hlist : gridBad.occupied_points
      = [gridEx.center_from_voxel (0, 0, 0), gridEx.center_from_voxel (1, 0, 0)] := rfl
  rw [hlist]
  intro hcontra
  simp only [Option.map_some', Option.some.injEq, List.cons.injEq] at hcontra
  exact hne hcontra.1

/-- The lockstep invariant of the OccupiedCenters caches (§3 of the spec):
`occupied_points` is, entry by entry, the center of the voxel stored at the
same index of `occupied_voxel_points`, and the voxel cache is a permutation
of the keys of the occupancy map.  It implies the length equalities of
claim C1. -/
def cacheInv {V : Type} (g : VoxelGrid V) : Prop :=
  g.occupied_points = g.occupied_voxel_points.map g.center_from_voxel ∧
  g.occupied_voxel_points.Perm (dictKeys g.value_from_voxel)

theorem center_injective {V : Type} (g : VoxelGrid V)
    (hres : g.resolutions.1 ≠ 0 ∧ g.resolutions.2.1 ≠ 0 ∧ g.resolutions.2.2 ≠ 0)
    (a b : Voxel) (h : g.center_from_voxel a = g.center_from_voxel b) :
    a = b := by
  simp only [VoxelGrid.center_from_voxel, VoxelGrid.lower_scaled,
    Prod.mk.injEq] at h
  obtain ⟨h1, h2, h3⟩ := h
  have g1 : ((a.1 : ℚ) + 1/2) = ((b.1 : ℚ) + 1/2) :=
    mul_right_cancel₀ hres.1 h1
  have g2 : ((a.2.1 : ℚ) + 1/2) = ((b.2.1 : ℚ) + 1/2) :=
    mul_right_cancel₀ hres.2.1 h2
  have g3 : ((a.2.2 : ℚ) + 1/2) = ((b.2.2 : ℚ) + 1/2) :=
    mul_right_cancel₀ hres.2.2 h3
  have i1 : a.1 = b.1 := by exact_mod_cast add_right_cancel g1
  have i2 : a.2.1 = b.2.1 := by exact_mod_cast add_right_cancel g2
  have i3 : a.2.2 = b.2.2 := by exact_mod_cast add_right_cancel g3
  exact Prod.ext i1 (Prod.ext i2 i3)

theorem perm_erase_beq {α : Type} [BEq α] [LawfulBEq α] (a : α)
    {l₁ l₂ : List α} (p : l₁.Perm l₂) : (l₁.erase a).Perm (l₂.erase a) := by
  induction p with
  | nil => simp
  | cons x p ih =>
    by_cases hx : (x == a) = true
    · simp [List.erase_cons, hx, p]
    · simp only [List.erase_cons, hx, if_false]
      exact ih.cons x
  | swap x y l =>
    by_cases hy : (y == a) = true
    · by_cases hx : (x == a) = true
      · have : x = y := by
          rw [eq_of_beq hx, eq_of_beq hy]
        subst this
        simp [List.erase_cons, hx]
      · simp [List.erase_cons, hx, hy]
    · by_cases hx : (x == a) = true
      · simp [List.erase_cons, hx, hy]
      · simp only [List.erase_cons, hx, hy, if_false]
        exact List.Perm.swap x y _
  | trans p1 p2 ih1 ih2 => exact ih1.trans ih2

/-- Locating a voxel's center in a lockstep point cache: the first index
whose point equals `c v` carries `v` itself, and removing the matched point
and the matched voxel removes the same position in both lists. -/
theorem cache_locate {c : Voxel → Point3} (hc : ∀ a b, c a = c b → a = b)
    (L : List Voxel) (v : Voxel) (hv : v ∈ L) :
    ∃ idx, (L.map c).findIdx? (fun p => decide (p = c v)) = some idx ∧
      (L.map c)[idx]? = some (c v) ∧ L[idx]? = some v ∧
      (L.map c).erase (c v) = (L.erase v).map c := by
  induction L with
  | nil => cases hv
  | cons w t ih =>
    by_cases hcw : c w = c v
    · have hwv : w = v := hc _ _ hcw
      subst hwv
      refine ⟨0, ?_, ?_, List.getElem?_cons_zero, ?_⟩
      · rw [List.map_cons, List.findIdx?_cons]
        simp [hcw]
      · rw [List.map_cons]
        simp [hcw]
      · rw [List.map_cons, hcw, List.erase_cons_head, List.erase_cons_head]
    · have hwv : w ≠ v := fun hh => hcw (hh ▸ rfl)
      have hvt : v ∈ t := by
        rcases List.mem_cons.mp hv with h | h
        · exact absurd h.symm hwv
        · exact h
      obtain ⟨idx, hfind, hgetp, hgetv, herase⟩ := ih hvt
      refine ⟨idx + 1, ?_, ?_, ?_, ?_⟩
      · rw [List.map_cons, List.findIdx?_cons]
        simp [hcw, List.findIdx?_succ, hfind]
      · rw [List.map_cons, List.getElem?_cons_succ]
        exact hgetp
      · rw [List.getElem?_cons_succ]
        exact hgetv
      · rw [List.map_cons, List.erase_cons_tail (by simp [hcw]),
          List.erase_cons_tail (by simp [hwv]), List.map_cons, herase]

theorem dictKeys_append {V : Type} (m : List (Voxel × V)) (k : Voxel) (val : V) :
    dictKeys (m ++ [(k, val)]) = dictKeys m ++ [k] := by
  simp [dictKeys]

theorem dictKeys_dictPop {V : Type} (m : List (Voxel × V)) (k : Voxel) :
    dictKeys (dictPop m k) = (dictKeys m).erase k := by
  induction m with
  | nil => rfl
  | cons e rest ih =>
    by_cases he : e.1 = k
    · simp [dictPop, dictKeys, he, List.erase_cons_head]
    · rw [show dictPop (e :: rest) k = e :: dictPop rest k by simp [dictPop, he]]
      rw [show dictKeys (e :: rest) = e.1 :: dictKeys rest from rfl,
        show dictKeys (e :: dictPop rest k) = e.1 :: dictKeys (dictPop rest k) from rfl,
        List.erase_cons_tail (by simp [he]), ih]

theorem contains_iff_mem_keys {V : Type} (g : VoxelGrid V) (v : Voxel) :
    g.contains v = true ↔ v ∈ dictKeys g.value_from_voxel := by
  rw [VoxelGrid.contains, dictContains_iff]
  constructor
  · rintro ⟨e, he, hek⟩
    exact hek ▸ List.mem_map_of_mem Prod.fst he
  · intro h
    obtain ⟨e, he, hek⟩ := List.mem_map.mp h
    exact ⟨e, he, hek⟩

/-- The claim C1 (amended): given nonzero resolutions (the spec fixes them
positive), the lockstep invariant — equal cache lengths with index
correspondence and length equal to `|value_from_voxel|` — is preserved by
`set_occupied` and by `set_free` (the operations through which the bulk
`add_bodies`/`remove_bodies` mutate), and it entails the three-way length
equality; `set_value`, `remove_value` and `copy` do not maintain it (see the
counterexample). -/
theorem C1_cache_invariant {V : Type} (g : VoxelGrid V) (v : Voxel)
    (hres : g.resolutions.1 ≠ 0 ∧ g.resolutions.2.1 ≠ 0 ∧ g.resolutions.2.2 ≠ 0)
    (hinv : cacheInv g) :
    (g.occupied_points.length = g.occupied_voxel_points.length ∧
      g.occupied_voxel_points.length = g.value_from_voxel.length) ∧
    cacheInv (g.set_occupied v).2 ∧
    (∃ b g2, g.set_free v = some (b, g2) ∧ cacheInv g2) := by
  obtain ⟨hmapinv, hperm⟩ := hinv
  refine ⟨⟨?_, ?_⟩, ?_, ?_⟩
  · rw [hmapinv, List.length_map]
  · rw [hperm.length_eq]
    simp [dictKeys]
  · by_cases hocc : g.contains v = true
    · rw [set_occupied_of_contains g v hocc]
      exact ⟨hmapinv, hperm⟩
    · rw [set_occupied_of_not_contains g v (by simpa using hocc)]
      constructor
      · show g.occupied_points ++ [g.center_from_voxel v]
          = (g.occupied_voxel_points ++ [v]).map g.center_from_voxel
        rw [List.map_append, ← hmapinv]
        rfl
      · show (g.occupied_voxel_points ++ [v]).Perm
          (dictKeys (g.value_from_voxel ++ [(v, g.default)]))
        rw [dictKeys_append]
        exact hperm.append (List.Perm.refl [v])
  · by_cases hocc : g.contains v = true
    · have hvkeys : v ∈ dictKeys g.value_from_voxel :=
        (contains_iff_mem_keys g v).mp hocc
      have hvL : v ∈ g.occupied_voxel_points := hperm.mem_iff.mpr hvkeys
      obtain ⟨idx, hfind, hgetp, hgetv, herase⟩ :=
        cache_locate (center_injective g hres) g.occupied_voxel_points v hvL
      have hfind' : g.occupied_points.findIdx?
          (fun p => decide (p = g.center_from_voxel v)) = some idx := by
        rw [hmapinv]
        exact hfind
      have hgetp' : g.occupied_points[idx]? = some (g.center_from_voxel v) := by
        rw [hmapinv]
        exact hgetp
      refine ⟨true, _, set_free_locate g v hocc idx _ v hfind' hgetp' hgetv, ?_, ?_⟩
      · show (g.remove_value v).occupied_points.erase (g.center_from_voxel v)
          = ((g.remove_value v).occupied_voxel_points.erase v).map
              ({ g.remove_value v with
                  occupied_points := (g.remove_value v).occupied_points.erase _,
                  occupied_voxel_points :=
                    (g.remove_value v).occupied_voxel_points.erase v } :
                VoxelGrid V).center_from_voxel
        rw [remove_value_of_contains g v hocc]
        show g.occupied_points.erase (g.center_from_voxel v)
          = (g.occupied_voxel_points.erase v).map g.center_from_voxel
        rw [hmapinv, herase]
      · show ((g.remove_value v).occupied_voxel_points.erase v).Perm
          (dictKeys (g.remove_value v).value_from_voxel)
        rw [remove_value_of_contains g v hocc]
        show (g.occupied_voxel_points.erase v).Perm
          (dictKeys (dictPop g.value_from_voxel v))
        rw [dictKeys_dictPop]
        exact perm_erase_beq v hperm
    · refine ⟨false, g, set_free_of_not_contains g v (by simpa using hocc), ?_⟩
      exact ⟨hmapinv, hperm⟩

/-- Witness for C1 at the empty unit grid and voxel `(0,0,0)`. -/
theorem C1_witness :
    cacheInv gridEx ∧
    ((gridEx.occupied_points.length = gridEx.occupied_voxel_points.length ∧
        gridEx.occupied_voxel_points.length = gridEx.value_from_voxel.length) ∧
      cacheInv (gridEx.set_occupied (0, 0, 0)).2 ∧
      (∃ b g2, gridEx.set_free (0, 0, 0) = some (b, g2) ∧ cacheInv g2)) :=
  ⟨⟨rfl, List.Perm.refl _⟩,
    C1_cache_invariant gridEx (0, 0, 0)
      ⟨by norm_num [gridEx, VoxelGrid.empty], by norm_num [gridEx, VoxelGrid.empty],
        by norm_num [gridEx, VoxelGrid.empty]⟩
      ⟨rfl, List.Perm.refl _⟩⟩

/-- Counterexample to C1 as stated: `set_value` on a fresh voxel grows the
map but not the caches, `remove_value` shrinks the map but not the caches,
and `copy` returns a grid whose map is full but whose caches are empty —
after each of these completed mutations the length equality fails. -/
theorem C1_counterexample :
    (gridEx.set_value (0, 0, 0) true).occupied_points.length
        ≠ (gridEx.set_value (0, 0, 0) true).value_from_voxel.length ∧
    (gridOcc.remove_value (0, 0, 0)).occupied_points.length
        ≠ (gridOcc.remove_value (0, 0, 0)).value_from_voxel.length ∧
    gridOcc.copy.occupied_points.length ≠ gridOcc.copy.value_from_voxel.length := by
  refine ⟨by decide, by decide, by decide⟩

/-- The box with the roles of lower and upper exchanged on the x axis. -/
def swapX (a : AABB) : AABB :=
  ((a.2.1, a.1.2.1, a.1.2.2), (a.1.1, a.2.2.1, a.2.2.2))

/-- The box with the roles of lower and upper exchanged on the y axis. -/
def swapY (a : AABB) : AABB :=
  ((a.1.1, a.2.2.1, a.1.2.2), (a.2.1, a.1.2.1, a.2.2.2))

/-- The box with the roles of lower and upper exchanged on the z axis. -/
def swapZ (a : AABB) : AABB :=
  ((a.1.1, a.1.2.1, a.2.2.2), (a.2.1, a.2.2.1, a.1.2.2))

/-- The corrected box: per-axis sorted corners. -/
def sortAabb (a : AABB) : AABB :=
  ((min a.1.1 a.2.1, min a.1.2.1 a.2.2.1, min a.1.2.2 a.2.2.2),
    (max a.1.1 a.2.1, max a.1.2.1 a.2.2.1, max a.1.2.2 a.2.2.2))

theorem verts_swapX (a : AABB) :
    (get_aabb_vertices (swapX a)).Perm (get_aabb_vertices a) := by
  obtain ⟨⟨x1, y1, z1⟩, x2, y2, z2⟩ := a
  show ([(x2, y1, z1), (x2, y1, z2), (x2, y2, z1), (x2, y2, z2)] ++
      [(x1, y1, z1), (x1, y1, z2), (x1, y2, z1), (x1, y2, z2)]).Perm
    ([(x1, y1, z1), (x1, y1, z2), (x1, y2, z1), (x1, y2, z2)] ++
      [(x2, y1, z1), (x2, y1, z2), (x2, y2, z1), (x2, y2, z2)])
  exact List.perm_append_comm

theorem verts_swapY (a : AABB) :
    (get_aabb_vertices (swapY a)).Perm (get_aabb_vertices a) := by
  obtain ⟨⟨x1, y1, z1⟩, x2, y2, z2⟩ := a
  show (([(x1, y2, z1), (x1, y2, z2)] ++ [(x1, y1, z1), (x1, y1, z2)]) ++
      ([(x2, y2, z1), (x2, y2, z2)] ++ [(x2, y1, z1), (x2, y1, z2)])).Perm
    (([(x1, y1, z1), (x1, y1, z2)] ++ [(x1, y2, z1), (x1, y2, z2)]) ++
      ([(x2, y1, z1), (x2, y1, z2)] ++ [(x2, y2, z1), (x2, y2, z2)]))
  exact List.Perm.append List.perm_append_comm List.perm_append_comm

theorem verts_swapZ (a : AABB) :
    (get_aabb_vertices (swapZ a)).Perm (get_aabb_vertices a) := by
  obtain ⟨⟨x1, y1, z1⟩, x2, y2, z2⟩ := a
  show (((x1, y1, z2) :: (x1, y1, z1) :: ([(x1, y2, z2), (x1, y2, z1)] ++
      [(x2, y1, z2), (x2, y1, z1), (x2, y2, z2), (x2, y2, z1)]))).Perm
    ((x1, y1, z1) :: (x1, y1, z2) :: ([(x1, y2, z1), (x1, y2, z2)] ++
      [(x2, y1, z1), (x2, y1, z2), (x2, y2, z1), (x2, y2, z2)]))
  refine (List.Perm.swap _ _ _).trans ?_
  refine List.Perm.cons _ (List.Perm.cons _ ?_)
  refine List.Perm.append (List.Perm.swap _ _ _) ?_
  show ((x2, y1, z2) :: (x2, y1, z1) :: [(x2, y2, z2), (x2, y2, z1)]).Perm
    ((x2, y1, z1) :: (x2, y1, z2) :: [(x2, y2, z1), (x2, y2, z2)])
  exact (List.Perm.swap _ _ _).trans
    (List.Perm.cons _ (List.Perm.cons _ (List.Perm.swap _ _ _)))

theorem maxRightComm {α : Type} [LinearOrder α] (a b c : α) :
    max (max a b) c = max (max a c) b := by
  rw [max_assoc, max_comm b c, ← max_assoc]

instance : RightCommutative hullStep :=
  ⟨by
    intro b a1 a2
    simp only [hullStep, Prod.mk.injEq]
    refine ⟨⟨?_, ?_, ?_⟩, ?_, ?_, ?_⟩ <;>
      first
        | exact min_right_comm _ _ _
        | exact maxRightComm _ _ _⟩

theorem aabb_from_points_perm {l₁ l₂ : List Voxel} (p : l₁.Perm l₂) :
    aabb_from_points l₁ = aabb_from_points l₂ := by
  induction p with
  | nil => rfl
  | cons x p ih =>
    show List.foldl hullStep (x, x) _ = List.foldl hullStep (x, x) _
    exact p.foldl_eq _
  | swap x y l =>
    show List.foldl hullStep (hullStep (y, y) x) l
      = List.foldl hullStep (hullStep (x, x) y) l
    congr 1
    simp only [hullStep, Prod.mk.injEq]
    refine ⟨⟨?_, ?_, ?_⟩, ?_, ?_, ?_⟩ <;>
      first
        | exact min_comm _ _
        | exact max_comm _ _
  | trans p1 p2 ih1 ih2 => exact ih1.trans ih2

theorem voxels_from_aabb_congr {V : Type} (g : VoxelGrid V) {a b : AABB}
    (h : (get_aabb_vertices a).Perm (get_aabb_vertices b)) :
    g.voxels_from_aabb a = g.voxels_from_aabb b := by
  unfold VoxelGrid.voxels_from_aabb
  rw [aabb_from_points_perm (h.map g.voxel_from_point)]

/-- The claim C6 (amended): `voxels_from_aabb` performs no validation — on
an inverted box it returns exactly the candidate voxels of the corrected
(per-axis sorted) box, because the per-axis hull of the 8 corner voxels is
taken before range expansion; it never fails and the iteration is never
inverted or empty. -/
theorem C6_voxels_from_aabb_no_validation {V : Type} (g : VoxelGrid V)
    (a : AABB) : g.voxels_from_aabb a = g.voxels_from_aabb (sortAabb a) := by
  apply voxels_from_aabb_congr
  obtain ⟨⟨x1, y1, z1⟩, x2, y2, z2⟩ := a
  rcases le_total x1 x2 with hx | hx <;> rcases le_total y1 y2 with hy | hy <;>
    rcases le_total z1 z2 with hz | hz
  · rw [show sortAabb ((x1, y1, z1), x2, y2, z2) = ((x1, y1, z1), x2, y2, z2) by
      simp [sortAabb, min_eq_left, max_eq_right, hx, hy, hz]]
  · rw [show sortAabb ((x1, y1, z1), x2, y2, z2) = swapZ ((x1, y1, z1), x2, y2, z2) by
      simp [sortAabb, swapZ, min_eq_left hx, max_eq_right hx, min_eq_left hy,
        max_eq_right hy, min_eq_right hz, max_eq_left hz]]
    exact (verts_swapZ _).symm
  · rw [show sortAabb ((x1, y1, z1), x2, y2, z2) = swapY ((x1, y1, z1), x2, y2, z2) by
      simp [sortAabb, swapY, min_eq_left hx, max_eq_right hx, min_eq_right hy,
        max_eq_left hy, min_eq_left hz, max_eq_right hz]]
    exact (verts_swapY _).symm
  · rw [show sortAabb ((x1, y1, z1), x2, y2, z2)
        = swapY (swapZ ((x1, y1, z1), x2, y2, z2)) by
      simp [sortAabb, swapY, swapZ, min_eq_left hx, max_eq_right hx,
        min_eq_right hy, max_eq_left hy, min_eq_right hz, max_eq_left hz]]
    exact ((verts_swapY _).trans (verts_swapZ _)).symm
  · rw [show sortAabb ((x1, y1, z1), x2, y2, z2) = swapX ((x1, y1, z1), x2, y2, z2) by
      simp [sortAabb, swapX, min_eq_right hx, max_eq_left hx, min_eq_left hy,
        max_eq_right hy, min_eq_left hz, max_eq_right hz]]
    exact (verts_swapX _).symm
  · rw [show sortAabb ((x1, y1, z1), x2, y2, z2)
        = swapX (swapZ ((x1, y1, z1), x2, y2, z2)) by
      simp [sortAabb, swapX, swapZ, min_eq_right hx, max_eq_left hx,
        min_eq_left hy, max_eq_right hy, min_eq_right hz, max_eq_left hz]]
    exact ((verts_swapX _).trans (verts_swapZ _)).symm
  · rw [show sortAabb ((x1, y1, z1), x2, y2, z2)
        = swapX (swapY ((x1, y1, z1), x2, y2, z2)) by
      simp [sortAabb, swapX, swapY, min_eq_right hx, max_eq_left hx,
        min_eq_right hy, max_eq_left hy, min_eq_left hz, max_eq_right hz]]
    exact ((verts_swapX _).trans (verts_swapY _)).symm
  · rw [show sortAabb ((x1, y1, z1), x2, y2, z2)
        = swapX (swapY (swapZ ((x1, y1, z1), x2, y2, z2))) by
      simp [sortAabb, swapX, swapY, swapZ, min_eq_right hx, max_eq_left hx,
        min_eq_right hy, max_eq_left hy, min_eq_right hz, max_eq_left hz]]
    exact ((verts_swapX _).trans ((verts_swapY _).trans (verts_swapZ _))).symm

/-- Counterexample to C6 as stated: on the fully inverted box with lower
corner `(1,1,1)` and upper corner `(0,0,0)`, `voxels_from_aabb` does not
fail — it returns the full (nonempty) candidate list of the corrected
box. -/
theorem C6_counterexample :
    gridEx.voxels_from_aabb ((1, 1, 1), (0, 0, 0))
      = [(0, 0, 0), (0, 0, 1), (0, 1, 0), (0, 1, 1),
          (1, 0, 0), (1, 0, 1), (1, 1, 0), (1, 1, 1)] ∧
    gridEx.voxels_from_aabb ((1, 1, 1), (0, 0, 0)) ≠ [] := by
  have hmap : (get_aabb_vertices ((1, 1, 1), (0, 0, 0))).map gridEx.voxel_from_point
      = [(1, 1, 1), (1, 1, 0), (1, 0, 1), (1, 0, 0),
          (0, 1, 1), (0, 1, 0), (0, 0, 1), (0, 0, 0)] := by
    simp [get_aabb_vertices, VoxelGrid.voxel_from_point, gridEx, VoxelGrid.empty]
  have heq : gridEx.voxels_from_aabb ((1, 1, 1), (0, 0, 0))
      = [(0, 0, 0), (0, 0, 1), (0, 1, 0), (0, 1, 1),
          (1, 0, 0), (1, 0, 1), (1, 1, 0), (1, 1, 1)] := by
    unfold VoxelGrid.voxels_from_aabb
    rw [hmap]
    decide
  exact ⟨heq, by rw [heq]; decide⟩

/-- Pixel rectangle lower corner of a heightfield entry. -/
def entryLowPix {V : Type} (g : VoxelGrid V) (pl : Point3) (ps : ℚ)
    (w h : ℤ) (e : Voxel) : ℤ × ℤ :=
  pixel_from_point pl ps w h (g.aabb_from_voxel e).1

/-- Pixel rectangle upper corner of a heightfield entry. -/
def entryHighPix {V : Type} (g : VoxelGrid V) (pl : Point3) (ps : ℚ)
    (w h : ℤ) (e : Voxel) : ℤ × ℤ :=
  pixel_from_point pl ps w h (g.aabb_from_voxel e).2

/-- An entry's rectangle lies fully inside the image (the silently-discard
guard of lines 550-551 does not fire). -/
def entryInImage {V : Type} (g : VoxelGrid V) (pl : Point3) (ps : ℚ)
    (w h : ℤ) (e : Voxel) : Prop :=
  ¬ ((entryLowPix g pl ps w h e).1 < 0 ∨ w ≤ (entryHighPix g pl ps w h e).1 ∨
      (entryLowPix g pl ps w h e).2 < 0 ∨ h ≤ (entryHighPix g pl ps w h e).2)

/-- Pixel `(r, c)` is covered by an entry's rectangle, with the row flip
`r = height - y - 1`. -/
def entryCovers {V : Type} (g : VoxelGrid V) (pl : Point3) (ps : ℚ)
    (w h : ℤ) (e : Voxel) (rc : ℤ × ℤ) : Prop :=
  (entryLowPix g pl ps w h e).1 ≤ rc.2 ∧ rc.2 ≤ (entryHighPix g pl ps w h e).1 ∧
    (entryLowPix g pl ps w h e).2 ≤ h - 1 - rc.1 ∧
    h - 1 - rc.1 ≤ (entryHighPix g pl ps w h e).2

instance {V : Type} (g : VoxelGrid V) (pl : Point3) (ps : ℚ) (w h : ℤ)
    (e : Voxel) : Decidable (entryInImage g pl ps w h e) := by
  unfold entryInImage
  infer_instance

instance {V : Type} (g : VoxelGrid V) (pl : Point3) (ps : ℚ) (w h : ℤ)
    (e : Voxel) (rc : ℤ × ℤ) : Decidable (entryCovers g pl ps w h e rc) := by
  unfold entryCovers
  infer_instance

/-- The normalized height an entry paints with (line 553). -/
def paintVal {V : Type} (g : VoxelGrid V) (e : Voxel) : ℚ :=
  (clip (g.aabb_from_voxel e).2.2.2 0 2 - 0) / 2

theorem paintEntry_apply {V : Type} (g : VoxelGrid V) (pl : Point3) (ps : ℚ)
    (w h : ℤ) (hm : ℤ × ℤ → ℚ) (e : Voxel) (rc : ℤ × ℤ) :
    paintEntry g pl ps w h hm e rc =
      if entryInImage g pl ps w h e ∧ entryCovers g pl ps w h e rc then
        max (hm rc) (paintVal g e)
      else hm rc := by
  unfold paintEntry entryInImage entryCovers entryLowPix entryHighPix paintVal
  rw [apply_ite (fun f : ℤ × ℤ → ℚ => f rc)]
  split_ifs <;> first | rfl | tauto

theorem paintEntry_right_comm {V : Type} (g : VoxelGrid V) (pl : Point3)
    (ps : ℚ) (w h : ℤ) (hm : ℤ × ℤ → ℚ) (e1 e2 : Voxel) (rc : ℤ × ℤ) :
    paintEntry g pl ps w h (paintEntry g pl ps w h hm e1) e2 rc
      = paintEntry g pl ps w h (paintEntry g pl ps w h hm e2) e1 rc := by
  rw [paintEntry_apply, paintEntry_apply, paintEntry_apply, paintEntry_apply]
  split_ifs <;> first | rfl | exact maxRightComm _ _ _

instance paintEntryRC {V : Type} (g : VoxelGrid V) (pl : Point3) (ps : ℚ)
    (w h : ℤ) : RightCommutative (paintEntry g pl ps w h) :=
  ⟨fun hm e1 e2 => funext fun rc => paintEntry_right_comm g pl ps w h hm e1 e2 rc⟩

theorem paintEntries_perm {V : Type} (g : VoxelGrid V) (pl : Point3) (ps : ℚ)
    (w h : ℤ) (hm0 : ℤ × ℤ → ℚ) {l1 l2 : List Voxel} (hp : l1.Perm l2) :
    paintEntries g pl ps w h hm0 l1 = paintEntries g pl ps w h hm0 l2 :=
  hp.foldl_eq hm0

theorem paintEntries_mono {V : Type} (g : VoxelGrid V) (pl : Point3) (ps : ℚ)
    (w h : ℤ) (l : List Voxel) (hm0 : ℤ × ℤ → ℚ) (rc : ℤ × ℤ) :
    hm0 rc ≤ paintEntries g pl ps w h hm0 l rc := by
  induction l generalizing hm0 with
  | nil => exact le_refl _
  | cons e t ih =>
    refine le_trans ?_ (ih (paintEntry g pl ps w h hm0 e))
    rw [paintEntry_apply]
    split_ifs
    · exact le_max_left _ _
    · exact le_refl _

/-- The concrete grid of the C9 scenario: unit cells in x and y, cell height
`1/5`, with the two columns `(0,0)` and `(1,0)` occupied at `k = 2` and
`k = 6`, so the columns' normalized top heights are `3/10` and `7/10` and
both columns rasterize to the single pixel rectangle `(1,1)-(1,1)` of a
2-by-2 image over the square of side 8 centered at the origin. -/
def grid9 : VoxelGrid Bool :=
  (((VoxelGrid.empty (1, 1, 1/5) false id).set_occupied (0, 0, 2)).2.set_occupied
    (1, 0, 6)).2

theorem grid9_res : grid9.resolutions = (1, 1, 1/5) := rfl

theorem grid9_low1 : entryLowPix grid9 (-4, -4, 0) 8 2 2 (0, 0, 2) = (1, 1) := by
  simp only [entryLowPix, pixel_from_point, VoxelGrid.aabb_from_voxel,
    VoxelGrid.lower_from_voxel, VoxelGrid.lower_scaled, pointOfVoxel,
    grid9_res, Prod.mk.injEq]
  norm_num [Int.floor_eq_iff]

theorem grid9_high1 : entryHighPix grid9 (-4, -4, 0) 8 2 2 (0, 0, 2) = (1, 1) := by
  simp only [entryHighPix, pixel_from_point, VoxelGrid.aabb_from_voxel,
    VoxelGrid.upper_from_voxel, VoxelGrid.lower_scaled, grid9_res, Prod.mk.injEq]
  norm_num [Int.floor_eq_iff]

theorem grid9_low2 : entryLowPix grid9 (-4, -4, 0) 8 2 2 (1, 0, 6) = (1, 1) := by
  simp only [entryLowPix, pixel_from_point, VoxelGrid.aabb_from_voxel,
    VoxelGrid.lower_from_voxel, VoxelGrid.lower_scaled, pointOfVoxel,
    grid9_res, Prod.mk.injEq]
  norm_num [Int.floor_eq_iff]

theorem grid9_high2 : entryHighPix grid9 (-4, -4, 0) 8 2 2 (1, 0, 6) = (1, 1) := by
  simp only [entryHighPix, pixel_from_point, VoxelGrid.aabb_from_voxel,
    VoxelGrid.upper_from_voxel, VoxelGrid.lower_scaled, grid9_res, Prod.mk.injEq]
  norm_num [Int.floor_eq_iff]

theorem grid9_val1 : paintVal grid9 (0, 0, 2) = 3/10 := by
  simp only [paintVal, clip, VoxelGrid.aabb_from_voxel, VoxelGrid.upper_from_voxel,
    VoxelGrid.lower_scaled, grid9_res]
  norm_num

theorem grid9_val2 : paintVal grid9 (1, 0, 6) = 7/10 := by
  simp only [paintVal, clip, VoxelGrid.aabb_from_voxel, VoxelGrid.upper_from_voxel,
    VoxelGrid.lower_scaled, grid9_res]
  norm_num

theorem grid9_step1 (hm : ℤ × ℤ → ℚ) :
    paintEntry grid9 (-4, -4, 0) 8 2 2 hm (0, 0, 2) (0, 1)
      = max (hm (0, 1)) (3/10) := by
  rw [paintEntry_apply, if_pos, grid9_val1]
  constructor
  · rw [entryInImage, grid9_low1, grid9_high1]
    norm_num
  · rw [entryCovers, grid9_low1, grid9_high1]
    norm_num

theorem grid9_step2 (hm : ℤ × ℤ → ℚ) :
    paintEntry grid9 (-4, -4, 0) 8 2 2 hm (1, 0, 6) (0, 1)
      = max (hm (0, 1)) (7/10) := by
  rw [paintEntry_apply, if_pos, grid9_val2]
  constructor
  · rw [entryInImage, grid9_low2, grid9_high2]
    norm_num
  · rw [entryCovers, grid9_low2, grid9_high2]
    norm_num

/-- The claim C9: painting in `create_height_map` takes the pointwise
maximum of the current pixel and the new normalized height — so the paint
loop's outcome is independent of the entry order, it never lowers an
already-painted pixel, and the concrete scenario of two occupied columns
with the same one-pixel footprint and normalized heights `3/10` and `7/10`
paints that pixel `7/10` in either order (also end to end through
`create_height_map`). -/
theorem C9_height_map_pointwise_max :
    (∀ (V : Type) (g : VoxelGrid V) (pl : Point3) (ps : ℚ) (w h : ℤ)
        (hm0 : ℤ × ℤ → ℚ) (l1 l2 : List Voxel), l1.Perm l2 →
        paintEntries g pl ps w h hm0 l1 = paintEntries g pl ps w h hm0 l2) ∧
    (∀ (V : Type) (g : VoxelGrid V) (pl : Point3) (ps : ℚ) (w h : ℤ)
        (l : List Voxel) (hm0 : ℤ × ℤ → ℚ) (rc : ℤ × ℤ),
        hm0 rc ≤ paintEntries g pl ps w h hm0 l rc) ∧
    paintEntries grid9 (-4, -4, 0) 8 2 2 (fun _ => 0)
      [(0, 0, 2), (1, 0, 6)] (0, 1) = 7/10 ∧
    paintEntries grid9 (-4, -4, 0) 8 2 2 (fun _ => 0)
      [(1, 0, 6), (0, 0, 2)] (0, 1) = 7/10 ∧
    grid9.create_height_map (0, 0, 0) 8 2 2 (0, 1) = 7/10 := by
  have hlistA : paintEntries grid9 (-4, -4, 0) 8 2 2 (fun _ => 0)
      [(0, 0, 2), (1, 0, 6)] (0, 1) = 7/10 := by
    show paintEntry grid9 (-4, -4, 0) 8 2 2
      (paintEntry grid9 (-4, -4, 0) 8 2 2 (fun _ => 0) (0, 0, 2)) (1, 0, 6) (0, 1)
      = 7/10
    rw [grid9_step2, grid9_step1]
    norm_num
  have hlistB : paintEntries grid9 (-4, -4, 0) 8 2 2 (fun _ => 0)
      [(1, 0, 6), (0, 0, 2)] (0, 1) = 7/10 := by
    show paintEntry grid9 (-4, -4, 0) 8 2 2
      (paintEntry grid9 (-4, -4, 0) 8 2 2 (fun _ => 0) (1, 0, 6)) (0, 0, 2) (0, 1)
      = 7/10
    rw [grid9_step1, grid9_step2]
    norm_num
  have hend : grid9.create_height_map (0, 0, 0) 8 2 2 (0, 1) = 7/10 := by
    have hchm : grid9.create_height_map (0, 0, 0) 8 2 2
        = paintEntries grid9 ((0 : ℚ) - 8/2, (0 : ℚ) - 8/2, (0 : ℚ)) 8 2 2
            (fun _ => 0) grid9.project2dList := rfl
    have hproj : grid9.project2dList = [(0, 0, 2), (1, 0, 6)] := by decide
    have hpl : (((0 : ℚ) - 8/2, (0 : ℚ) - 8/2, (0 : ℚ)) : Point3)
        = ((-4 : ℚ), (-4 : ℚ), (0 : ℚ)) := by norm_num
    rw [hchm, hproj, hpl]
    exact hlistA
  exact ⟨fun Vt g pl ps w h hm0 l1 l2 hp => paintEntries_perm g pl ps w h hm0 hp,
    fun Vt g pl ps w h l hm0 rc => paintEntries_mono g pl ps w h l hm0 rc,
    hlistA, hlistB, hend⟩

/-- Witness for C9: the two concrete entry orders are permutations of each
other, and the general order-independence conjunct applied to them yields
the same paint function. -/
theorem C9_witness :
    (([(0, 0, 2), (1, 0, 6)] : List Voxel).Perm [(1, 0, 6), (0, 0, 2)]) ∧
    paintEntries grid9 (-4, -4, 0) 8 2 2 (fun _ => 0) [(0, 0, 2), (1, 0, 6)]
      = paintEntries grid9 (-4, -4, 0) 8 2 2 (fun _ => 0) [(1, 0, 6), (0, 0, 2)] :=
  ⟨by decide,
    C9_height_map_pointwise_max.1 Bool grid9 (-4, -4, 0) 8 2 2 (fun _ => 0)
      [(0, 0, 2), (1, 0, 6)] [(1, 0, 6), (0, 0, 2)] (by decide)⟩

/-- First-match lookup in the column table (Python `voxel_heights[i, j]`). -/
def colGet (cols : List ((ℤ × ℤ) × List ℤ)) (ij : ℤ × ℤ) : List ℤ :=
  match cols with
  | [] => []
  | c :: rest => if c.1 = ij then c.2 else colGet rest ij

theorem colGet_addHeight_self (cols : List ((ℤ × ℤ) × List ℤ)) (ij : ℤ × ℤ)
    (k : ℤ) :
    colGet (addHeight cols ij k) ij =
      if k ∈ colGet cols ij then colGet cols ij else colGet cols ij ++ [k] := by
  induction cols with
  | nil => simp [addHeight, colGet]
  | cons c rest ih =>
    obtain ⟨key, ks⟩ := c
    by_cases hk : key = ij
    · subst hk
      simp [addHeight, colGet]
  
    · simp [addHeight, colGet, hk, ih]

theorem colGet_addHeight_other (cols : List ((ℤ × ℤ) × List ℤ)) (ij ij' : ℤ × ℤ)
    (k : ℤ) (h : ij' ≠ ij) :
    colGet (addHeight cols ij k) ij' = colGet cols ij' := by
  induction cols with
  | nil =>
    simp only [addHeight, colGet]
    rw [if_neg (Ne.symm h)]
  | cons c rest ih =>
    obtain ⟨key, ks⟩ := c
    by_cases hk : key = ij
    · subst hk
      simp [addHeight, colGet, Ne.symm h]
    · by_cases hk' : key = ij'
      · subst hk'
        simp [addHeight, colGet, hk]
      · simp [addHeight, colGet, hk, hk', ih]

theorem addHeight_keys (cols : List ((ℤ × ℤ) × List ℤ)) (ij : ℤ × ℤ) (k : ℤ) :
    (addHeight cols ij k).map Prod.fst =
      if ij ∈ cols.map Prod.fst then cols.map Prod.fst
      else cols.map Prod.fst ++ [ij] := by
  induction cols with
  | nil => simp [addHeight]
  | cons c rest ih =>
    obtain ⟨key, ks⟩ := c
    by_cases hk : key = ij
    · subst hk
      simp [addHeight]
    · rw [show addHeight ((key, ks) :: rest) ij k
          = (key, ks) :: addHeight rest ij k by simp [addHeight, hk]]
      have hne : ij ≠ key := fun hh => hk hh.symm
      by_cases hmem : ij ∈ rest.map Prod.fst <;>
        simp [ih, hmem, hne]

theorem colGet_of_mem (cols : List ((ℤ × ℤ) × List ℤ))
    (hkeys : (cols.map Prod.fst).Nodup) (c : (ℤ × ℤ) × List ℤ) (hc : c ∈ cols) :
    colGet cols c.1 = c.2 := by
  induction cols with
  | nil => cases hc
  | cons d rest ih =>
    rcases List.mem_cons.mp hc with rfl | hc
    · simp [colGet]
    · have hd : d.1 ≠ c.1 := by
        intro hh
        have : c.1 ∈ rest.map Prod.fst := List.mem_map_of_mem Prod.fst hc
        rw [← hh] at this
        exact (List.nodup_cons.mp hkeys).1 this
      simp only [colGet, hd, if_false]
      exact ih (List.nodup_cons.mp hkeys).2 hc

theorem mem_keys_of_mem (cols : List ((ℤ × ℤ) × List ℤ))
    (c : (ℤ × ℤ) × List ℤ) (hc : c ∈ cols) : c.1 ∈ cols.map Prod.fst :=
  List.mem_map_of_mem Prod.fst hc

/-- Invariant of the column table built by the `voxel_heights` loop of
`create_intervals` over the processed voxels `P`: unique column keys;
`colGet` holds exactly, without duplicates, the `k` indices of `P` in that
column; and a key is present exactly when its column is nonempty. -/
def colsInv (cols : List ((ℤ × ℤ) × List ℤ)) (P : List Voxel) : Prop :=
  (cols.map Prod.fst).Nodup ∧
  (∀ ij : ℤ × ℤ, ∀ k' : ℤ, k' ∈ colGet cols ij ↔ ((ij.1, ij.2, k') : Voxel) ∈ P) ∧
  (∀ ij : ℤ × ℤ, ij ∈ cols.map Prod.fst ↔ colGet cols ij ≠ []) ∧
  (∀ ij : ℤ × ℤ, (colGet cols ij).Nodup)

theorem colsInv_addHeight {cols : List ((ℤ × ℤ) × List ℤ)} {P : List Voxel}
    (h : colsInv cols P) (i j k : ℤ) :
    colsInv (addHeight cols (i, j) k) (P ++ [(i, j, k)]) := by
  obtain ⟨hkeys, hmem, hpres, hnd⟩ := h
  refine ⟨?_, ?_, ?_, ?_⟩
  · rw [addHeight_keys]
    by_cases hij : (i, j) ∈ cols.map Prod.fst
    · simpa [hij] using hkeys
    · simp only [hij, if_false]
      refine List.Nodup.append hkeys (List.nodup_singleton _) ?_
      intro a ha hb
      rw [List.mem_singleton] at hb
      subst hb
      exact hij ha
  · intro ij k'
    by_cases hij : ij = (i, j)
    · subst hij
      rw [colGet_addHeight_self]
      by_cases hk : k ∈ colGet cols (i, j)
      · simp only [hk, if_true]
        rw [hmem]
        constructor
        · intro hh
          exact List.mem_append.mpr (Or.inl hh)
        · intro hh
          rcases List.mem_append.mp hh with hh | hh
          · exact hh
          · rcases List.mem_singleton.mp hh with heq
            simp only [Prod.mk.injEq] at heq
            rw [heq.2.2]
            exact (hmem _ _).mp hk
      · simp only [hk, if_false]
        rw [List.mem_append, List.mem_singleton, hmem, List.mem_append,
          List.mem_singleton]
        constructor
        · rintro (hh | rfl)
          · exact Or.inl hh
          · simp
        · rintro (hh | hh)
          · exact Or.inl hh
          · simp only [Prod.mk.injEq] at hh
            exact Or.inr hh.2.2
    · rw [colGet_addHeight_other _ _ _ _ hij, List.mem_append, List.mem_singleton,
        hmem]
      constructor
      · exact Or.inl
      · rintro (hh | hh)
        · exact hh
        · simp only [Prod.mk.injEq] at hh
          exact absurd (Prod.ext hh.1 hh.2.1) hij
  · intro ij
    by_cases hij : ij = (i, j)
    · subst hij
      rw [colGet_addHeight_self, addHeight_keys]
      by_cases hkey : (i, j) ∈ cols.map Prod.fst
      · have hne : colGet cols (i, j) ≠ [] := (hpres _).mp hkey
        by_cases hk : k ∈ colGet cols (i, j) <;> simp [hk, hkey, hne]
      · by_cases hk : k ∈ colGet cols (i, j)
        · exact absurd ((hpres _).mpr (List.ne_nil_of_mem hk)) hkey
        · simp [hk, hkey]
    · rw [colGet_addHeight_other _ _ _ _ hij, addHeight_keys]
      by_cases hkey : (i, j) ∈ cols.map Prod.fst
      · simp only [hkey, if_true]
        exact hpres ij
      · simp only [hkey, if_false, List.mem_append, List.mem_singleton]
        rw [hpres ij]
        constructor
        · rintro (hh | hh)
          · exact hh
          · exact absurd hh hij
        · exact Or.inl
  · intro ij
    by_cases hij : ij = (i, j)
    · subst hij
      rw [colGet_addHeight_self]
      by_cases hk : k ∈ colGet cols (i, j)
      · simpa [hk] using hnd (i, j)
      · simp only [hk, if_false]
        refine List.Nodup.append (hnd _) (List.nodup_singleton _) ?_
        intro a ha hb
        rw [List.mem_singleton] at hb
        subst hb
        exact hk ha
    · rw [colGet_addHeight_other _ _ _ _ hij]
      exact hnd ij

theorem colsInv_foldl (vs : List Voxel) :
    ∀ (cols : List ((ℤ × ℤ) × List ℤ)) (P : List Voxel), colsInv cols P →
    colsInv (vs.foldl (fun acc v => addHeight acc (v.1, v.2.1) v.2.2) cols)
      (P ++ vs) := by
  induction vs with
  | nil => intro cols P h; simpa using h
  | cons v t ih =>
    intro cols P h
    have hstep := colsInv_addHeight h v.1 v.2.1 v.2.2
    have := ih (addHeight cols (v.1, v.2.1) v.2.2) (P ++ [(v.1, v.2.1, v.2.2)]) hstep
    simpa using this

theorem colsInv_buildColumns (O : List Voxel) : colsInv (buildColumns O) O := by
  have h0 : colsInv [] [] := by
    refine ⟨by simp, by simp [colGet], by simp [colGet], by simp [colGet]⟩
  simpa [buildColumns] using colsInv_foldl O [] [] h0

theorem sorted_strict (ks : List ℤ) (h : ks.Nodup) :
    List.Pairwise (· < ·) (List.insertionSort (· ≤ ·) ks) := by
  have hsorted : List.Pairwise (· ≤ ·) (List.insertionSort (· ≤ ·) ks) :=
    List.sorted_insertionSort (· ≤ ·) ks
  have hnd : (List.insertionSort (· ≤ ·) ks).Nodup :=
    h.perm (List.perm_insertionSort (· ≤ ·) ks).symm
  exact (hsorted.and hnd).imp fun hab => lt_of_le_of_ne hab.1 hab.2

/-- Specification of the run merge: intervals are well formed with first
components at least `start`, consecutive intervals have a gap of at least
one index, and together the intervals cover exactly `[start, last]` and the
remaining (strictly ascending) heights. -/
theorem mergeRuns_spec (ks : List ℤ) : ∀ start last : ℤ, start ≤ last →
    List.Pairwise (· < ·) (last :: ks) →
    (∀ ab ∈ mergeRuns start last ks, start ≤ ab.1 ∧ ab.1 ≤ ab.2) ∧
    List.Pairwise (fun ab cd : ℤ × ℤ => ab.2 + 1 < cd.1)
      (mergeRuns start last ks) ∧
    (∀ x : ℤ, (∃ ab ∈ mergeRuns start last ks, ab.1 ≤ x ∧ x ≤ ab.2) ↔
      (start ≤ x ∧ x ≤ last) ∨ x ∈ ks) := by
  induction ks with
  | nil =>
    intro start last hsl _
    refine ⟨?_, ?_, ?_⟩
    · intro ab hab
      rcases List.mem_singleton.mp hab with rfl
      exact ⟨le_refl _, hsl⟩
    · exact List.pairwise_singleton _ _
    · intro x
      simp [mergeRuns]
  | cons k rest ih =>
    intro start last hsl hchain
    have hlk : last < k := (List.pairwise_cons.mp hchain).1 k (List.mem_cons_self _ _)
    have hchain' : List.Pairwise (· < ·) (k :: rest) :=
      (List.pairwise_cons.mp hchain).2
    by_cases hk : k = last + 1
    · have hres : mergeRuns start last (k :: rest) = mergeRuns start k rest := by
        simp [mergeRuns, hk]
      obtain ⟨hlo, hgap, hcov⟩ := ih start k (le_trans hsl (le_of_lt hlk)) hchain'
      rw [hres]
      refine ⟨hlo, hgap, ?_⟩
      intro x
      rw [hcov x, List.mem_cons]
      constructor
      · rintro (⟨h1, h2⟩ | h1)
        · rcases lt_or_ge x k with hx | hx
          · exact Or.inl ⟨h1, by omega⟩
          · right
            left
            omega
        · exact Or.inr (Or.inr h1)
      · rintro (⟨h1, h2⟩ | h1 | h1)
        · exact Or.inl ⟨h1, by omega⟩
        · subst h1
          exact Or.inl ⟨by omega, le_refl _⟩
        · exact Or.inr h1
    · have hres : mergeRuns start last (k :: rest)
          = (start, last) :: mergeRuns k k rest := by
        simp [mergeRuns, hk]
      obtain ⟨hlo, hgap, hcov⟩ := ih k k (le_refl k) hchain'
      rw [hres]
      refine ⟨?_, ?_, ?_⟩
      · intro ab hab
        rcases List.mem_cons.mp hab with rfl | hab
        · exact ⟨le_refl _, hsl⟩
        · obtain ⟨h1, h2⟩ := hlo ab hab
          exact ⟨by omega, h2⟩
      · refine List.pairwise_cons.mpr ⟨?_, hgap⟩
        intro cd hcd
        have := (hlo cd hcd).1
        omega
      · intro x
        rw [List.mem_cons]
        constructor
        · rintro ⟨ab, hab, h1, h2⟩
          rcases List.mem_cons.mp hab with rfl | hab
          · exact Or.inl ⟨h1, h2⟩
          · rcases (hcov x).mp ⟨ab, hab, h1, h2⟩ with ⟨ha, hb⟩ | hx
            · right
              left
              omega
            · exact Or.inr (Or.inr hx)
        · rintro (⟨h1, h2⟩ | h1 | h1)
          · exact ⟨(start, last), List.mem_cons_self _ _, h1, h2⟩
          · subst h1
            obtain ⟨ab, hab, h1, h2⟩ := (hcov x).mpr (Or.inl ⟨le_refl _, le_refl _⟩)
            exact ⟨ab, List.mem_cons_of_mem _ hab, h1, h2⟩
          · obtain ⟨ab, hab, h1, h2⟩ := (hcov x).mpr (Or.inr h1)
            exact ⟨ab, List.mem_cons_of_mem _ hab, h1, h2⟩

/-- Specification of one column's intervals: duplicate-free heights are
covered exactly, with gaps between intervals and well-formed bounds. -/
theorem columnIntervals_spec (ks : List ℤ) (hnd : ks.Nodup) (hne : ks ≠ []) :
    (∀ ab ∈ columnIntervals ks, ab.1 ≤ ab.2) ∧
    List.Pairwise (fun ab cd : ℤ × ℤ => ab.2 + 1 < cd.1) (columnIntervals ks) ∧
    (∀ x : ℤ, (∃ ab ∈ columnIntervals ks, ab.1 ≤ x ∧ x ≤ ab.2) ↔ x ∈ ks) := by
  have hperm := List.perm_insertionSort (· ≤ ·) ks
  have hstrict := sorted_strict ks hnd
  obtain hS | ⟨h, t, hS⟩ : List.insertionSort (· ≤ ·) ks = [] ∨
      ∃ h t, List.insertionSort (· ≤ ·) ks = h :: t := by
    cases hs : List.insertionSort (· ≤ ·) ks with
    | nil => exact Or.inl rfl
    | cons a b => exact Or.inr ⟨a, b, rfl⟩
  · rw [hS] at hperm
    exact absurd hperm.nil_eq.symm hne
  · have hresult : columnIntervals ks = mergeRuns h h t := by
      simp [columnIntervals, hS]
    rw [hS] at hstrict
    obtain ⟨hlo, hgap, hcov⟩ := mergeRuns_spec t h h (le_refl h) hstrict
    rw [hresult]
    refine ⟨fun ab hab => (hlo ab hab).2, hgap, ?_⟩
    intro x
    rw [hcov x]
    have hmem : x ∈ ks ↔ x = h ∨ x ∈ t := by
      rw [← hperm.mem_iff, hS, List.mem_cons]
    rw [hmem]
    constructor
    · rintro (⟨h1, h2⟩ | h1)
      · exact Or.inl (le_antisymm h2 h1)
      · exact Or.inr h1
    · rintro (rfl | h1)
      · exact Or.inl ⟨le_refl _, le_refl _⟩
      · exact Or.inr h1

theorem pairwise_elim {α : Type} {R : α → α → Prop} :
    ∀ {l : List α}, l.Pairwise R → ∀ {a b : α}, a ∈ l → b ∈ l →
      a = b ∨ R a b ∨ R b a := by
  intro l
  induction l with
  | nil => intro _ a b ha _; cases ha
  | cons hd tl ih =>
    intro hl a b ha hb
    obtain ⟨hhead, htail⟩ := List.pairwise_cons.mp hl
    rcases List.mem_cons.mp ha with ha1 | ha1
    · rcases List.mem_cons.mp hb with hb1 | hb1
      · exact Or.inl (ha1.trans hb1.symm)
      · right
        left
        rw [ha1]
        exact hhead b hb1
    · rcases List.mem_cons.mp hb with hb1 | hb1
      · right
        right
        rw [hb1]
        exact hhead a ha1
      · exact ih htail ha1 hb1

theorem runs_unique {I : List (ℤ × ℤ)}
    (hgap : List.Pairwise (fun ab cd : ℤ × ℤ => ab.2 + 1 < cd.1) I)
    {ab cd : ℤ × ℤ} (hab : ab ∈ I) (hcd : cd ∈ I) (x : ℤ)
    (h1 : ab.1 ≤ x) (h2 : x ≤ ab.2) (h3 : cd.1 ≤ x) (h4 : x ≤ cd.2) :
    ab = cd := by
  rcases pairwise_elim hgap hab hcd with h | h | h
  · exact h
  · omega
  · omega

/-- The interval bounds that `create_intervals` emitted for column `(i, j)`,
in output order. -/
def columnOf (I : List (ℤ × ℤ × (ℤ × ℤ))) (i j : ℤ) : List (ℤ × ℤ) :=
  I.filterMap (fun t => if t.1 = i ∧ t.2.1 = j then some t.2.2 else none)

theorem columnOf_append (I1 I2 : List (ℤ × ℤ × (ℤ × ℤ))) (i j : ℤ) :
    columnOf (I1 ++ I2) i j = columnOf I1 i j ++ columnOf I2 i j := by
  simp [columnOf, List.filterMap_append]

theorem columnOf_map_match (i j : ℤ) (L : List (ℤ × ℤ)) :
    columnOf (L.map (fun ab => (i, j, ab))) i j = L := by
  induction L with
  | nil => rfl
  | cons ab t ih =>
    simp only [columnOf, List.filterMap_map] at ih ⊢
    rw [List.filterMap_cons]
    simpa using ih

theorem columnOf_map_mismatch (i j i' j' : ℤ) (h : ¬ (i' = i ∧ j' = j))
    (L : List (ℤ × ℤ)) :
    columnOf (L.map (fun ab => (i', j', ab))) i j = [] := by
  induction L with
  | nil => rfl
  | cons ab t ih =>
    simp only [columnOf, List.filterMap_map] at ih ⊢
    rw [List.filterMap_cons]
    simpa [h] using ih

theorem columnOf_flatMap (i j : ℤ) :
    ∀ cols : List ((ℤ × ℤ) × List ℤ), (cols.map Prod.fst).Nodup →
    ((i, j) ∉ cols.map Prod.fst ∧
        columnOf (cols.flatMap (fun col => (columnIntervals col.2).map
          (fun ab => (col.1.1, col.1.2, ab)))) i j = []) ∨
    (∃ c ∈ cols, c.1 = (i, j) ∧
        columnOf (cols.flatMap (fun col => (columnIntervals col.2).map
          (fun ab => (col.1.1, col.1.2, ab)))) i j = columnIntervals c.2) := by
  intro cols
  induction cols with
  | nil => intro _; exact Or.inl ⟨by simp, rfl⟩
  | cons c rest ih =>
    intro hkeys
    have hkeys' : (rest.map Prod.fst).Nodup := (List.nodup_cons.mp hkeys).2
    have hsplit : columnOf ((c :: rest).flatMap (fun col =>
          (columnIntervals col.2).map (fun ab => (col.1.1, col.1.2, ab)))) i j
        = columnOf ((columnIntervals c.2).map (fun ab => (c.1.1, c.1.2, ab))) i j
          ++ columnOf (rest.flatMap (fun col => (columnIntervals col.2).map
            (fun ab => (col.1.1, col.1.2, ab)))) i j := by
      rw [List.flatMap_cons, columnOf_append]
    by_cases hc : c.1 = (i, j)
    · right
      refine ⟨c, List.mem_cons_self _ _, hc, ?_⟩
      have h1 : c.1.1 = i := by rw [hc]
      have h2 : c.1.2 = j := by rw [hc]
      have hmatch : columnOf ((columnIntervals c.2).map
          (fun ab => (c.1.1, c.1.2, ab))) i j = columnIntervals c.2 := by
        rw [show (fun ab : ℤ × ℤ => (c.1.1, c.1.2, ab))
            = (fun ab : ℤ × ℤ => (i, j, ab)) by
          funext ab
          rw [h1, h2]]
        exact columnOf_map_match i j _
      have hnokey : (i, j) ∉ rest.map Prod.fst := by
        rw [← hc]
        exact (List.nodup_cons.mp hkeys).1
      rcases ih hkeys' with ⟨_, hempty⟩ | ⟨c', hc', hkey', _⟩
      · rw [hsplit, hmatch, hempty, List.append_nil]
      · exact absurd (hkey' ▸ List.mem_map_of_mem Prod.fst hc') hnokey
    · have hmis : columnOf ((columnIntervals c.2).map
          (fun ab => (c.1.1, c.1.2, ab))) i j = [] := by
        refine columnOf_map_mismatch i j c.1.1 c.1.2 ?_ _
        rintro ⟨ha, hb⟩
        exact hc (Prod.ext ha hb)
      rcases ih hkeys' with ⟨hno, hempty⟩ | ⟨c', hc', hkey', heq'⟩
      · left
        refine ⟨?_, by rw [hsplit, hmis, hempty]; rfl⟩
        simp only [List.map_cons, List.mem_cons]
        rintro (hh | hh)
        · exact hc hh.symm
        · exact hno hh
      · right
        exact ⟨c', List.mem_cons_of_mem _ hc', hkey',
          by rw [hsplit, hmis, List.nil_append, heq']⟩

theorem mem_create_intervals {V : Type} (g : VoxelGrid V)
    (t : ℤ × ℤ × (ℤ × ℤ)) :
    t ∈ g.create_intervals ↔ ∃ c ∈ buildColumns g.occupied,
      c.1 = (t.1, t.2.1) ∧ t.2.2 ∈ columnIntervals c.2 := by
  unfold VoxelGrid.create_intervals
  rw [List.mem_flatMap]
  constructor
  · rintro ⟨c, hc, ht⟩
    obtain ⟨ab, hab, habt⟩ := List.mem_map.mp ht
    refine ⟨c, hc, ?_, ?_⟩
    · rw [← habt]
    · rw [← habt]
      exact hab
  · rintro ⟨c, hc, hkey, hab⟩
    refine ⟨c, hc, List.mem_map.mpr ⟨t.2.2, hab, ?_⟩⟩
    rw [show c.1.1 = t.1 by rw [hkey], show c.1.2 = t.2.1 by rw [hkey]]

theorem entry_unique {cols : List ((ℤ × ℤ) × List ℤ)}
    (hkeys : (cols.map Prod.fst).Nodup) {c c' : (ℤ × ℤ) × List ℤ}
    (hc : c ∈ cols) (hc' : c' ∈ cols) (h : c.1 = c'.1) : c = c' := by
  have hpw : cols.Pairwise (fun a b => a.1 ≠ b.1) := List.pairwise_map.mp hkeys
  rcases pairwise_elim hpw hc hc' with hh | hh | hh
  · exact hh
  · exact absurd h hh
  · exact absurd h.symm hh

theorem runs_no_extend {I : List (ℤ × ℤ)} (hlo : ∀ ab ∈ I, ab.1 ≤ ab.2)
    (hgap : List.Pairwise (fun ab cd : ℤ × ℤ => ab.2 + 1 < cd.1) I)
    {ab : ℤ × ℤ} (hab : ab ∈ I) :
    (¬ ∃ cd ∈ I, cd.1 ≤ ab.2 + 1 ∧ ab.2 + 1 ≤ cd.2) ∧
    (¬ ∃ cd ∈ I, cd.1 ≤ ab.1 - 1 ∧ ab.1 - 1 ≤ cd.2) := by
  have hab2 := hlo ab hab
  constructor
  · rintro ⟨cd, hcd, h1, h2⟩
    have hcd2 := hlo cd hcd
    rcases pairwise_elim hgap hab hcd with h | h | h
    · obtain ⟨e1, e2⟩ : ab.1 = cd.1 ∧ ab.2 = cd.2 := by rw [h]; exact ⟨rfl, rfl⟩
      omega
    · omega
    · omega
  · rintro ⟨cd, hcd, h1, h2⟩
    have hcd2 := hlo cd hcd
    rcases pairwise_elim hgap hab hcd with h | h | h
    · obtain ⟨e1, e2⟩ : ab.1 = cd.1 ∧ ab.2 = cd.2 := by rw [h]; exact ⟨rfl, rfl⟩
      omega
    · omega
    · omega

/-- The concrete grid of the C4 example: column `(0,0)` occupied at
`k ∈ {2, 3, 4, 7}`. -/
def gridC4 : VoxelGrid Bool :=
  (((((VoxelGrid.empty (1, 1, 1) false id).set_occupied (0, 0, 2)).2.set_occupied
      (0, 0, 3)).2.set_occupied (0, 0, 4)).2.set_occupied (0, 0, 7)).2

/-- The claim C4: every occupied voxel belongs to exactly one emitted
interval of its `(i, j)` column; the intervals of any one column are
pairwise disjoint with a gap of at least one index between consecutive ones
and appear in ascending start order; every interval is a maximal run of
consecutive occupied `k` indices; and the column occupied at
`k ∈ {2, 3, 4, 7}` yields exactly `(2,4)` and `(7,7)`. -/
theorem C4_create_intervals_runs :
    (∀ (V : Type) (g : VoxelGrid V),
      (∀ v ∈ g.occupied, ∃ ab : ℤ × ℤ,
          ((v.1, v.2.1, ab) : ℤ × ℤ × (ℤ × ℤ)) ∈ g.create_intervals ∧
          ab.1 ≤ v.2.2 ∧ v.2.2 ≤ ab.2 ∧
          ∀ ab' : ℤ × ℤ,
            ((v.1, v.2.1, ab') : ℤ × ℤ × (ℤ × ℤ)) ∈ g.create_intervals →
            ab'.1 ≤ v.2.2 → v.2.2 ≤ ab'.2 → ab' = ab) ∧
      (∀ i j : ℤ, List.Pairwise (fun ab cd : ℤ × ℤ => ab.2 + 1 < cd.1)
          (columnOf g.create_intervals i j)) ∧
      (∀ t ∈ g.create_intervals, t.2.2.1 ≤ t.2.2.2 ∧
        (∀ k : ℤ, t.2.2.1 ≤ k → k ≤ t.2.2.2 →
          ((t.1, t.2.1, k) : Voxel) ∈ g.occupied) ∧
        ((t.1, t.2.1, t.2.2.1 - 1) : Voxel) ∉ g.occupied ∧
        ((t.1, t.2.1, t.2.2.2 + 1) : Voxel) ∉ g.occupied)) ∧
    gridC4.create_intervals = [(0, 0, (2, 4)), (0, 0, (7, 7))] := by
  refine ⟨fun Vt g => ?_, by decide⟩
  obtain ⟨hkeys, hmem, hpres, hnd⟩ := colsInv_buildColumns g.occupied
  have centry : ∀ c ∈ buildColumns g.occupied, c.2.Nodup ∧ c.2 ≠ [] ∧
      ∀ k : ℤ, k ∈ c.2 ↔ ((c.1.1, c.1.2, k) : Voxel) ∈ g.occupied := by
    intro c hc
    have hcg : colGet (buildColumns g.occupied) c.1 = c.2 :=
      colGet_of_mem _ hkeys c hc
    refine ⟨?_, ?_, ?_⟩
    · rw [← hcg]
      exact hnd c.1
    · rw [← hcg]
      exact (hpres c.1).mp (mem_keys_of_mem _ c hc)
    · intro k
      rw [← hcg]
      exact hmem c.1 k
  refine ⟨?_, ?_, ?_⟩
  · rintro ⟨vi, vj, vk⟩ hv
    have hvcol : vk ∈ colGet (buildColumns g.occupied) (vi, vj) :=
      (hmem (vi, vj) vk).mpr hv
    have hkeymem : (vi, vj) ∈ (buildColumns g.occupied).map Prod.fst :=
      (hpres _).mpr (List.ne_nil_of_mem hvcol)
    obtain ⟨c, hc, hck⟩ := List.mem_map.mp hkeymem
    obtain ⟨cnd, cne, cmem⟩ := centry c hc
    have hcg : colGet (buildColumns g.occupied) c.1 = c.2 :=
      colGet_of_mem _ hkeys c hc
    have hvk : vk ∈ c.2 := by
      rw [hck] at hcg
      rw [← hcg]
      exact hvcol
    obtain ⟨hlo, hgap, hcov⟩ := columnIntervals_spec c.2 cnd cne
    obtain ⟨ab, hab, h1, h2⟩ := (hcov vk).mpr hvk
    refine ⟨ab, ?_, h1, h2, ?_⟩
    · rw [mem_create_intervals]
      exact ⟨c, hc, by rw [hck], hab⟩
    · intro ab' habI h1' h2'
      rw [mem_create_intervals] at habI
      obtain ⟨c', hc', hkey', hab'⟩ := habI
      have hcc : c' = c := entry_unique hkeys hc' hc (by rw [hkey', hck])
      subst hcc
      exact runs_unique hgap hab' hab vk h1' h2' h1 h2
  · intro i j
    rcases columnOf_flatMap i j (buildColumns g.occupied) hkeys with
      ⟨_, hempty⟩ | ⟨c, hc, _, heq⟩
    · rw [show columnOf g.create_intervals i j = [] from hempty]
      exact List.Pairwise.nil
    · obtain ⟨cnd, cne, _⟩ := centry c hc
      rw [show columnOf g.create_intervals i j = columnIntervals c.2 from heq]
      exact (columnIntervals_spec c.2 cnd cne).2.1
  · intro t ht
    rw [mem_create_intervals] at ht
    obtain ⟨c, hc, hkey, hab⟩ := ht
    obtain ⟨cnd, cne, cmem⟩ := centry c hc
    obtain ⟨hlo, hgap, hcov⟩ := columnIntervals_spec c.2 cnd cne
    refine ⟨hlo _ hab, ?_, ?_, ?_⟩
    · intro k hk1 hk2
      have hkc : k ∈ c.2 := (hcov k).mp ⟨t.2.2, hab, hk1, hk2⟩
      have hocc := (cmem k).mp hkc
      rw [show c.1.1 = t.1 by rw [hkey], show c.1.2 = t.2.1 by rw [hkey]] at hocc
      exact hocc
    · intro hmem'
      have hk : t.2.2.1 - 1 ∈ c.2 := by
        rw [cmem, show c.1.1 = t.1 by rw [hkey], show c.1.2 = t.2.1 by rw [hkey]]
        exact hmem'
      exact (runs_no_extend hlo hgap hab).2 ((hcov _).mpr hk)
    · intro hmem'
      have hk : t.2.2.2 + 1 ∈ c.2 := by
        rw [cmem, show c.1.1 = t.1 by rw [hkey], show c.1.2 = t.2.1 by rw [hkey]]
        exact hmem'
      exact (runs_no_extend hlo hgap hab).1 ((hcov _).mpr hk)

/-- Witness for C4 at `gridC4` and the occupied voxel `(0,0,2)`. -/
theorem C4_witness :
    (((0 : ℤ), (0 : ℤ), (2 : ℤ)) : Voxel) ∈ gridC4.occupied ∧
    ∃ ab : ℤ × ℤ,
      (((0 : ℤ), (0 : ℤ), ab) : ℤ × ℤ × (ℤ × ℤ)) ∈ gridC4.create_intervals ∧
      ab.1 ≤ 2 ∧ (2 : ℤ) ≤ ab.2 ∧
      ∀ ab' : ℤ × ℤ,
        (((0 : ℤ), (0 : ℤ), ab') : ℤ × ℤ × (ℤ × ℤ)) ∈ gridC4.create_intervals →
        ab'.1 ≤ 2 → (2 : ℤ) ≤ ab'.2 → ab' = ab :=
  ⟨by decide,
    (C4_create_intervals_runs.1 Bool gridC4).1 ((0 : ℤ), (0 : ℤ), (2 : ℤ))
      (by decide)⟩

/-- The set of occupied voxels (the keys of `value_from_voxel`). -/
def occSet {V : Type} (g : VoxelGrid V) : Finset Voxel :=
  (dictKeys g.value_from_voxel).toFinset

theorem is_occupied_iff_occSet {V : Type} (g : VoxelGrid V) (v : Voxel) :
    g.is_occupied v = true ↔ v ∈ occSet g := by
  rw [VoxelGrid.is_occupied, contains_iff_mem_keys, occSet, List.mem_toFinset]

theorem mem_occupied_iff_occSet {V : Type} (g : VoxelGrid V) (v : Voxel) :
    v ∈ g.occupied ↔ v ∈ occSet g := by
  rw [VoxelGrid.occupied, (List.perm_insertionSort voxelLe _).mem_iff, occSet,
    List.mem_toFinset]

theorem neighbors_symm (a b : Voxel) :
    a ∈ get_neighbors b ↔ b ∈ get_neighbors a := by
  obtain ⟨a1, a2, a3⟩ := a
  obtain ⟨b1, b2, b3⟩ := b
  simp only [get_neighbors, List.mem_cons, List.not_mem_nil, or_false,
    Prod.mk.injEq]
  constructor
  · rintro (h | h | h | h | h | h) <;> omega
  · rintro (h | h | h | h | h | h) <;> omega

/-- One occupied-to-occupied face-adjacency step. -/
def adjStep {V : Type} (g : VoxelGrid V) (a b : Voxel) : Prop :=
  a ∈ occSet g ∧ b ∈ occSet g ∧ b ∈ get_neighbors a

/-- Connectivity within the occupied set: the reflexive-transitive closure
of face adjacency restricted to occupied voxels. -/
def Reach {V : Type} (g : VoxelGrid V) : Voxel → Voxel → Prop :=
  Relation.ReflTransGen (adjStep g)

theorem adjStep_symm {V : Type} (g : VoxelGrid V) {a b : Voxel}
    (h : adjStep g a b) : adjStep g b a :=
  ⟨h.2.1, h.1, (neighbors_symm a b).mpr h.2.2⟩

theorem reach_symm {V : Type} (g : VoxelGrid V) {a b : Voxel}
    (h : Reach g a b) : Reach g b a := by
  induction h with
  | refl => exact Relation.ReflTransGen.refl
  | tail _ hstep ih => exact Relation.ReflTransGen.head (adjStep_symm g hstep) ih

theorem dfs_zero {V : Type} (g : VoxelGrid V) (a : Finset Voxel) (v : Voxel) :
    dfs g 0 a v = none := rfl

theorem dfs_succ {V : Type} (g : VoxelGrid V) (f : ℕ) (a : Finset Voxel)
    (v : Voxel) :
    dfs g (f + 1) a v =
      if v ∈ a ∨ ¬ (g.is_occupied v = true) then some ([], a)
      else
        match dfsList g f (insert v a) (get_neighbors v) with
        | none => none
        | some (rest, a2) => some (v :: rest, a2) := rfl

theorem dfsList_nil {V : Type} (g : VoxelGrid V) (f : ℕ) (a : Finset Voxel) :
    dfsList g f a [] = some ([], a) := rfl

theorem dfsList_cons {V : Type} (g : VoxelGrid V) (f : ℕ) (a : Finset Voxel)
    (n : Voxel) (ns : List Voxel) :
    dfsList g f a (n :: ns) =
      match dfs g f a n with
      | none => none
      | some (c, a2) =>
        match dfsList g f a2 ns with
        | none => none
        | some (cs, a3) => some (c ++ cs, a3) := rfl

/-- What a successful `dfs` call guarantees: the assigned set grows exactly
by the returned cluster; the cluster is duplicate-free, fresh and occupied;
an occupied start ends assigned; every occupied neighbor of a cluster
member ends assigned; and every cluster member is reachable from the
start. -/
def DfsConc {V : Type} (g : VoxelGrid V) (a : Finset Voxel) (v : Voxel)
    (c : List Voxel) (a' : Finset Voxel) : Prop :=
  a' = a ∪ c.toFinset ∧ c.Nodup ∧ (∀ x ∈ c, x ∉ a ∧ x ∈ occSet g) ∧
  (v ∈ occSet g → v ∈ a') ∧
  (∀ x ∈ c, ∀ n ∈ get_neighbors x, n ∈ occSet g → n ∈ a') ∧
  (∀ x ∈ c, v ∈ occSet g ∧ Reach g v x)

/-- The same guarantees for the neighbor-list loop, with reachability
rooted at some occupied list member. -/
def DfsListConc {V : Type} (g : VoxelGrid V) (a : Finset Voxel)
    (ns cs : List Voxel) (a' : Finset Voxel) : Prop :=
  a' = a ∪ cs.toFinset ∧ cs.Nodup ∧ (∀ x ∈ cs, x ∉ a ∧ x ∈ occSet g) ∧
  (∀ n ∈ ns, n ∈ occSet g → n ∈ a') ∧
  (∀ x ∈ cs, ∀ m ∈ get_neighbors x, m ∈ occSet g → m ∈ a') ∧
  (∀ x ∈ cs, ∃ n ∈ ns, n ∈ occSet g ∧ Reach g n x)

theorem dfsList_step {V : Type} (g : VoxelGrid V) (f : ℕ)
    (hP : ∀ (a : Finset Voxel) (v : Voxel) (c : List Voxel) (a' : Finset Voxel),
      dfs g f a v = some (c, a') → DfsConc g a v c a') :
    ∀ (ns : List Voxel) (a : Finset Voxel) (cs : List Voxel) (a' : Finset Voxel),
      dfsList g f a ns = some (cs, a') → DfsListConc g a ns cs a' := by
  intro ns
  induction ns with
  | nil =>
    intro a cs a' h
    rw [dfsList_nil] at h
    simp only [Option.some.injEq, Prod.mk.injEq] at h
    obtain ⟨rfl, rfl⟩ := h.symm
    refine ⟨by simp, List.nodup_nil, by simp, ?_, by simp, by simp⟩
    intro n hn
    cases hn
  | cons n ns ih =>
    intro a cs a' h
    rw [dfsList_cons] at h
    split at h
    · exact absurd h (by simp)
    · rename_i c a1 hd
      split at h
      · exact absurd h (by simp)
      · rename_i cs' a2 hdl
        simp only [Option.some.injEq, Prod.mk.injEq] at h
        obtain ⟨rfl, rfl⟩ := h.symm
        obtain ⟨ha1, hnd1, hfresh1, hval1, hclose1, hreach1⟩ := hP a n c a1 hd
        obtain ⟨ha2, hnd2, hfresh2, hseen2, hclose2, hreach2⟩ := ih a1 cs' a2 hdl
        have hsub1 : a ⊆ a1 := ha1 ▸ Finset.subset_union_left
        have hsub2 : a1 ⊆ a2 := ha2 ▸ Finset.subset_union_left
        refine ⟨?_, ?_, ?_, ?_, ?_, ?_⟩
        · rw [ha2, ha1, List.toFinset_append, Finset.union_assoc]
        · rw [List.nodup_append]
          refine ⟨hnd1, hnd2, ?_⟩
          intro x hx hx2
          refine (hfresh2 x hx2).1 ?_
          rw [ha1]
          exact Finset.mem_union_right _ (List.mem_toFinset.mpr hx)
        · intro x hx
          rcases List.mem_append.mp hx with hx | hx
          · exact hfresh1 x hx
          · obtain ⟨h1, h2⟩ := hfresh2 x hx
            exact ⟨fun hh => h1 (hsub1 hh), h2⟩
        · intro m hm hocc
          rcases List.mem_cons.mp hm with rfl | hm
          · exact hsub2 (hval1 hocc)
          · exact hseen2 m hm hocc
        · intro x hx m hmx hocc
          rcases List.mem_append.mp hx with hx | hx
          · exact hsub2 (hclose1 x hx m hmx hocc)
          · exact hclose2 x hx m hmx hocc
        · intro x hx
          rcases List.mem_append.mp hx with hx | hx
          · obtain ⟨hnocc, hr⟩ := hreach1 x hx
            exact ⟨n, List.mem_cons_self _ _, hnocc, hr⟩
          · obtain ⟨n', hn', ho', hr'⟩ := hreach2 x hx
            exact ⟨n', List.mem_cons_of_mem _ hn', ho', hr'⟩

theorem dfs_step {V : Type} (g : VoxelGrid V) (f : ℕ)
    (hQ : ∀ (a : Finset Voxel) (ns cs : List Voxel) (a' : Finset Voxel),
      dfsList g f a ns = some (cs, a') → DfsListConc g a ns cs a') :
    ∀ (a : Finset Voxel) (v : Voxel) (c : List Voxel) (a' : Finset Voxel),
      dfs g (f + 1) a v = some (c, a') → DfsConc g a v c a' := by
  intro a v c a' h
  rw [dfs_succ] at h
  by_cases hcond : v ∈ a ∨ ¬ (g.is_occupied v = true)
  · rw [if_pos hcond] at h
    simp only [Option.some.injEq, Prod.mk.injEq] at h
    obtain ⟨rfl, rfl⟩ := h.symm
    refine ⟨by simp, List.nodup_nil, by simp, ?_, by simp, by simp⟩
    intro hvocc
    rcases hcond with hva | hnocc
    · exact hva
    · exact absurd ((is_occupied_iff_occSet g v).mpr hvocc) hnocc
  · rw [if_neg hcond] at h
    push_neg at hcond
    obtain ⟨hva, hocc⟩ := hcond
    have hvocc : v ∈ occSet g := (is_occupied_iff_occSet g v).mp hocc
    split at h
    · exact absurd h (by simp)
    · rename_i rest a2 hdl
      simp only [Option.some.injEq, Prod.mk.injEq] at h
      obtain ⟨rfl, rfl⟩ := h.symm
      obtain ⟨ha2, hnd2, hfresh2, hseen2, hclose2, hreach2⟩ := hQ _ _ _ _ hdl
      have hsub : insert v a ⊆ a2 := ha2 ▸ Finset.subset_union_left
      refine ⟨?_, ?_, ?_, ?_, ?_, ?_⟩
      · rw [ha2, List.toFinset_cons, Finset.insert_union, ← Finset.union_insert]
      · refine List.nodup_cons.mpr ⟨?_, hnd2⟩
        intro hv
        exact (hfresh2 v hv).1 (Finset.mem_insert_self v a)
      · intro x hx
        rcases List.mem_cons.mp hx with rfl | hx
        · exact ⟨hva, hvocc⟩
        · obtain ⟨h1, h2⟩ := hfresh2 x hx
          exact ⟨fun hh => h1 (Finset.mem_insert_of_mem hh), h2⟩
      · intro _
        exact hsub (Finset.mem_insert_self v a)
      · intro x hx m hmx hocc2
        rcases List.mem_cons.mp hx with rfl | hx
        · exact hseen2 m hmx hocc2
        · exact hclose2 x hx m hmx hocc2
      · intro x hx
        rcases List.mem_cons.mp hx with rfl | hx
        · exact ⟨hvocc, Relation.ReflTransGen.refl⟩
        · obtain ⟨n', hn', hnocc, hr⟩ := hreach2 x hx
          exact ⟨hvocc, Relation.ReflTransGen.head ⟨hvocc, hnocc, hn'⟩ hr⟩

theorem dfs_spec {V : Type} (g : VoxelGrid V) :
    ∀ (f : ℕ) (a : Finset Voxel) (v : Voxel) (c : List Voxel) (a' : Finset Voxel),
      dfs g f a v = some (c, a') → DfsConc g a v c a' := by
  intro f
  induction f with
  | zero =>
    intro a v c a' h
    rw [dfs_zero] at h
    cases h
  | succ f ih =>
    exact dfs_step g f (fun a ns cs a' => dfsList_step g f ih ns a cs a')

theorem dfsList_spec {V : Type} (g : VoxelGrid V) (f : ℕ) :
    ∀ (a : Finset Voxel) (ns cs : List Voxel) (a' : Finset Voxel),
      dfsList g f a ns = some (cs, a') → DfsListConc g a ns cs a' :=
  fun a ns cs a' => dfsList_step g f (dfs_spec g f) ns a cs a'

/-- The fuel bound is sufficient: `dfs` never runs out when the fuel
exceeds the number of occupied voxels not yet assigned — so the fuel in the
embedding is an artifact and the Python recursion, which has no fuel,
computes the same result. -/
theorem dfs_some {V : Type} (g : VoxelGrid V) :
    ∀ (f : ℕ) (a : Finset Voxel) (v : Voxel),
      (occSet g \ a).card < f → (dfs g f a v).isSome = true := by
  intro f
  induction f with
  | zero =>
    intro a v hcard
    exact absurd hcard (by omega)
  | succ f ih =>
    have hlist : ∀ (ns : List Voxel) (A : Finset Voxel),
        (occSet g \ A).card < f → (dfsList g f A ns).isSome = true := by
      intro ns
      induction ns with
      | nil =>
        intro A _
        rw [dfsList_nil]
        rfl
      | cons n ns ihn =>
        intro A hA
        rw [dfsList_cons]
        have h1 := ih A n hA
        cases hd : dfs g f A n with
        | none =>
          rw [hd] at h1
          cases h1
        | some p =>
          obtain ⟨c, a1⟩ := p
          have hconc := dfs_spec g f A n c a1 hd
          have hsubA : A ⊆ a1 := hconc.1 ▸ Finset.subset_union_left
          have hcard1 : (occSet g \ a1).card ≤ (occSet g \ A).card :=
            Finset.card_le_card
              (Finset.sdiff_subset_sdiff (Finset.Subset.refl _) hsubA)
          have h2 := ihn a1 (lt_of_le_of_lt hcard1 hA)
          cases hdl : dfsList g f a1 ns with
          | none =>
            rw [hdl] at h2
            cases h2
          | some q =>
            obtain ⟨cs, a2⟩ := q
            simp [hdl]
    intro a v hcard
    rw [dfs_succ]
    by_cases hcond : v ∈ a ∨ ¬ (g.is_occupied v = true)
    · rw [if_pos hcond]
      rfl
    · rw [if_neg hcond]
      push_neg at hcond
      obtain ⟨hva, hocc⟩ := hcond
      have hvocc : v ∈ occSet g := (is_occupied_iff_occSet g v).mp hocc
      have hv : v ∈ occSet g \ a := Finset.mem_sdiff.mpr ⟨hvocc, hva⟩
      have hpos : 0 < (occSet g \ a).card := Finset.card_pos.mpr ⟨v, hv⟩
      have hcard2 : (occSet g \ insert v a).card < f := by
        rw [Finset.sdiff_insert, Finset.card_erase_of_mem hv]
        omega
      have h3 := hlist (get_neighbors v) (insert v a) hcard2
      cases hdl : dfsList g f (insert v a) (get_neighbors v) with
      | none =>
        rw [hdl] at h3
        cases h3
      | some q =>
        obtain ⟨rest, a2⟩ := q
        simp

theorem fuel_sufficient {V : Type} (g : VoxelGrid V) (a : Finset Voxel) :
    (occSet g \ a).card < dfsFuel g := by
  have h1 : (occSet g \ a).card ≤ (occSet g).card :=
    Finset.card_le_card Finset.sdiff_subset
  have h2 : (occSet g).card ≤ (dictKeys g.value_from_voxel).length :=
    List.toFinset_card_le _
  rw [dfsFuel]
  omega

theorem clustersAux_nil {V : Type} (g : VoxelGrid V) (assigned : Finset Voxel) :
    clustersAux g assigned [] = some [] := by
  rw [clustersAux]

theorem clustersAux_cons {V : Type} (g : VoxelGrid V) (assigned : Finset Voxel)
    (s : Voxel) (ss : List Voxel) :
    clustersAux g assigned (s :: ss) =
      match dfs g (dfsFuel g) assigned s with
      | none => none
      | some (c, a2) =>
        match clustersAux g a2 ss with
        | none => none
        | some cs => some (if c = [] then cs else c :: cs) := by
  rw [clustersAux]

/-- The seed loop of `get_clusters`, specified: for a closed occupied
assigned set, the loop succeeds and emits nonempty, internally connected,
neighbor-closed clusters of fresh occupied voxels covering every occupied
seed. -/
theorem clustersAux_spec {V : Type} (g : VoxelGrid V) :
    ∀ (seeds : List Voxel) (assigned : Finset Voxel),
      (∀ x ∈ assigned, x ∈ occSet g) →
      (∀ x ∈ assigned, ∀ n ∈ get_neighbors x, n ∈ occSet g → n ∈ assigned) →
      ∃ cs, clustersAux g assigned seeds = some cs ∧
        cs.flatten.Nodup ∧
        (∀ x ∈ cs.flatten, x ∉ assigned ∧ x ∈ occSet g) ∧
        (∀ s ∈ seeds, s ∈ occSet g → s ∈ assigned ∪ cs.flatten.toFinset) ∧
        (∀ c ∈ cs, c ≠ []) ∧
        (∀ c ∈ cs, ∀ x ∈ c, ∀ y ∈ c, Reach g x y) ∧
        (∀ c ∈ cs, ∀ x ∈ c, ∀ n ∈ get_neighbors x, n ∈ occSet g → n ∈ c) := by
  intro seeds
  induction seeds with
  | nil =>
    intro assigned _ _
    refine ⟨[], clustersAux_nil g assigned, by simp, by simp, ?_, by simp,
      by simp, by simp⟩
    intro s hs
    cases hs
  | cons s ss ih =>
    intro assigned hwf hcl
    have hsome := dfs_some g (dfsFuel g) assigned s (fuel_sufficient g assigned)
    cases hd : dfs g (dfsFuel g) assigned s with
    | none =>
      rw [hd] at hsome
      cases hsome
    | some p =>
      obtain ⟨c, a1⟩ := p
      obtain ⟨ha1, hnd1, hfresh1, hval1, hclose1, hreach1⟩ :=
        dfs_spec g (dfsFuel g) assigned s c a1 hd
      have hsubc : ∀ x ∈ c, x ∈ a1 := by
        intro x hx
        rw [ha1]
        exact Finset.mem_union_right _ (List.mem_toFinset.mpr hx)
      have hsub : assigned ⊆ a1 := ha1 ▸ Finset.subset_union_left
      have hwf1 : ∀ x ∈ a1, x ∈ occSet g := by
        intro x hx
        rw [ha1] at hx
        rcases Finset.mem_union.mp hx with hx | hx
        · exact hwf x hx
        · exact (hfresh1 x (List.mem_toFinset.mp hx)).2
      have hcl1 : ∀ x ∈ a1, ∀ n ∈ get_neighbors x, n ∈ occSet g → n ∈ a1 := by
        intro x hx n hn hnocc
        rw [ha1] at hx
        rcases Finset.mem_union.mp hx with hx | hx
        · exact hsub (hcl x hx n hn hnocc)
        · exact hclose1 x (List.mem_toFinset.mp hx) n hn hnocc
      have hcmax : ∀ x ∈ c, ∀ n ∈ get_neighbors x, n ∈ occSet g → n ∈ c := by
        intro x hx n hn hnocc
        have hna1 : n ∈ a1 := hclose1 x hx n hn hnocc
        rw [ha1] at hna1
        rcases Finset.mem_union.mp hna1 with hna | hna
        · exfalso
          have hxn : x ∈ get_neighbors n := (neighbors_symm x n).mpr hn
          have hxocc : x ∈ occSet g := (hfresh1 x hx).2
          exact (hfresh1 x hx).1 (hcl n hna x hxn hxocc)
        · exact List.mem_toFinset.mp hna
      have hcconn : ∀ x ∈ c, ∀ y ∈ c, Reach g x y := by
        intro x hx y hy
        exact (reach_symm g (hreach1 x hx).2).trans (hreach1 y hy).2
      obtain ⟨cs', hcs', hnd', hfresh', hseeds', hne', hconn', hmax'⟩ :=
        ih a1 hwf1 hcl1
      have hclu : clustersAux g assigned (s :: ss)
          = some (if c = [] then cs' else c :: cs') := by
        rw [clustersAux_cons, hd]
        simp [hcs']
      by_cases hc : c = []
      · subst hc
        have ha1eq : a1 = assigned := by
          rw [ha1]
          simp
        refine ⟨cs', by rw [hclu]; simp, hnd', ?_, ?_, hne', hconn', hmax'⟩
        · intro x hx
          obtain ⟨h1, h2⟩ := hfresh' x hx
          rw [ha1eq] at h1
          exact ⟨h1, h2⟩
        · intro t ht hocc
          rcases List.mem_cons.mp ht with rfl | ht
          · have := hval1 hocc
            rw [ha1eq] at this
            exact Finset.mem_union_left _ this
          · have := hseeds' t ht hocc
            rw [ha1eq] at this
            exact this
      · refine ⟨c :: cs', by rw [hclu]; simp [hc], ?_, ?_, ?_, ?_, ?_, ?_⟩
        · rw [List.flatten_cons, List.nodup_append]
          refine ⟨hnd1, hnd', ?_⟩
          intro x hx hx2
          exact (hfresh' x hx2).1 (hsubc x hx)
        · intro x hx
          rw [List.flatten_cons] at hx
          rcases List.mem_append.mp hx with hx | hx
          · exact hfresh1 x hx
          · obtain ⟨h1, h2⟩ := hfresh' x hx
            exact ⟨fun hh => h1 (hsub hh), h2⟩
        · intro t ht hocc
          rw [List.flatten_cons, List.toFinset_append]
          rcases List.mem_cons.mp ht with rfl | ht
          · have := hval1 hocc
            rw [ha1] at this
            rcases Finset.mem_union.mp this with hh | hh
            · exact Finset.mem_union_left _ hh
            · exact Finset.mem_union_right _ (Finset.mem_union_left _ hh)
          · have := hseeds' t ht hocc
            rcases Finset.mem_union.mp this with hh | hh
            · rw [ha1] at hh
              rcases Finset.mem_union.mp hh with hh | hh
              · exact Finset.mem_union_left _ hh
              · exact Finset.mem_union_right _ (Finset.mem_union_left _ hh)
            · exact Finset.mem_union_right _ (Finset.mem_union_right _ hh)
        · intro d hd2
          rcases List.mem_cons.mp hd2 with rfl | hd2
          · exact hc
          · exact hne' d hd2
        · intro d hd2
          rcases List.mem_cons.mp hd2 with rfl | hd2
          · exact hcconn
          · exact hconn' d hd2
        · intro d hd2
          rcases List.mem_cons.mp hd2 with rfl | hd2
          · exact hcmax
          · exact hmax' d hd2

/-- The concrete grid with occupied voxels `(0,0,0)` and `(5,5,5)`. -/
def gridC3a : VoxelGrid Bool :=
  (((VoxelGrid.empty (1, 1, 1) false id).set_occupied (0, 0, 0)).2.set_occupied
    (5, 5, 5)).2

/-- The concrete grid with occupied voxels `(0,0,0)` and `(0,0,1)`. -/
def gridC3b : VoxelGrid Bool :=
  (((VoxelGrid.empty (1, 1, 1) false id).set_occupied (0, 0, 0)).2.set_occupied
    (0, 0, 1)).2

/-- The concrete grid with the diagonal-only pair `(0,0,0)` and `(1,1,0)`. -/
def gridC3c : VoxelGrid Bool :=
  (((VoxelGrid.empty (1, 1, 1) false id).set_occupied (0, 0, 0)).2.set_occupied
    (1, 1, 0)).2

/-- The claim C3: `get_clusters` on the occupied set partitions the occupied
voxels into maximal connected components under 6-connectivity — the
clusters are nonempty and duplicate-free, jointly cover exactly the
occupied set, each is internally connected under occupied face adjacency,
and each is closed under occupied face adjacency (so diagonal neighbors do
not connect); concretely, `{(0,0,0),(5,5,5)}` gives two singletons,
`{(0,0,0),(0,0,1)}` one cluster of size two, and the diagonal-only pair
`{(0,0,0),(1,1,0)}` two clusters. -/
theorem C3_get_clusters_components :
    (∀ (V : Type) (g : VoxelGrid V), ∃ cs,
      g.get_clusters g.occupied = some cs ∧
      cs.flatten.Nodup ∧
      cs.flatten.toFinset = occSet g ∧
      (∀ c ∈ cs, c ≠ []) ∧
      (∀ c ∈ cs, ∀ x ∈ c, ∀ y ∈ c, Reach g x y) ∧
      (∀ c ∈ cs, ∀ x ∈ c, ∀ n ∈ get_neighbors x, n ∈ occSet g → n ∈ c)) ∧
    gridC3a.get_clusters gridC3a.occupied = some [[(0, 0, 0)], [(5, 5, 5)]] ∧
    gridC3b.get_clusters gridC3b.occupied = some [[(0, 0, 0), (0, 0, 1)]] ∧
    gridC3c.get_clusters gridC3c.occupied = some [[(0, 0, 0)], [(1, 1, 0)]] := by
  refine ⟨?_, by decide, by decide, by decide⟩
  intro Vt g
  obtain ⟨cs, hcs, hnd, hfresh, hseeds, hne, hconn, hmax⟩ :=
    clustersAux_spec g g.occupied ∅ (by simp) (by simp)
  refine ⟨cs, hcs, hnd, ?_, hne, hconn, hmax⟩
  apply Finset.ext
  intro x
  rw [List.mem_toFinset]
  constructor
  · intro hx
    exact (hfresh x hx).2
  · intro hx
    have hxseed : x ∈ g.occupied := (mem_occupied_iff_occSet g x).mpr hx
    have := hseeds x hxseed hx
    rw [Finset.empty_union] at this
    exact List.mem_toFinset.mp this
